import Mathlib

/-!
A verification development for the cheer-reader library (a cheerio-based port
of readability.js).  The definitions below are a shallow embedding of the
library's source: the DOM is an inductive tree, cheerio traversals become
recursive functions, JavaScript numbers become `Nat`/`Int`/`ℚ`, and the
specific regular expressions used by the library are expanded into explicit
string predicates.  The theorems at the end settle the specified properties
of the extraction pipeline against this embedding.
-/

namespace CheerReader

/-! ### JavaScript-flavoured character and string primitives -/

/-- The JavaScript `\s` character class (Unicode whitespace and line
terminators, as used by the library's regular expressions). -/
def isJsWs (c : Char) : Bool :=
  c = ' ' || c = '\t' || c = '\n' || c.toNat = 0x0B || c.toNat = 0x0C ||
  c.toNat = 0x0D || c.toNat = 0xA0 || c.toNat = 0x1680 ||
  (0x2000 ≤ c.toNat && c.toNat ≤ 0x200A) || c.toNat = 0x2028 ||
  c.toNat = 0x2029 || c.toNat = 0x202F || c.toNat = 0x205F ||
  c.toNat = 0x3000 || c.toNat = 0xFEFF

/-- JavaScript line terminators: the characters that the regex `.` does not
match. -/
def isJsLineTerm (c : Char) : Bool :=
  c = '\n' || c = '\r' || c.toNat = 0x2028 || c.toNat = 0x2029

/-- Case fold covering the character ranges exercised by the library's
case-insensitive regular expressions and `toLowerCase` calls: ASCII A-Z,
Latin-1 À-Þ (except ×), and Cyrillic А-Я together with Ё. -/
def jsFoldChar (c : Char) : Char :=
  if 'A' ≤ c && c ≤ 'Z' then Char.ofNat (c.toNat + 32)
  else if 0xC0 ≤ c.toNat && c.toNat ≤ 0xDE && c.toNat ≠ 0xD7 then
    Char.ofNat (c.toNat + 32)
  else if 0x410 ≤ c.toNat && c.toNat ≤ 0x42F then Char.ofNat (c.toNat + 32)
  else if c.toNat = 0x401 then Char.ofNat 0x451
  else c

/-- `String.toLowerCase` restricted to the ranges of `jsFoldChar`. -/
def jsToLower (s : String) : String := String.mk (s.data.map jsFoldChar)

/-- Trim JavaScript whitespace from both ends (`String.prototype.trim`). -/
def jsTrim (s : String) : String :=
  String.mk (((s.data.dropWhile isJsWs).reverse.dropWhile isJsWs).reverse)

/-- Scanner state for `collapseSt`: either scanning normally, holding a single
pending whitespace character that may or may not start a run, or inside a run
that has already been collapsed to a single space. -/
inductive CollapseState where
  | norm
  | pend (c : Char)
  | run

/-- `replace(/\s{2,}/g, ' ')` as a character scanner: every run of two or more
whitespace characters becomes a single space; single whitespace characters are
kept as they are. -/
def collapseSt : CollapseState → List Char → List Char
  | .norm, [] => []
  | .pend w, [] => [w]
  | .run, [] => []
  | .norm, c :: rest =>
    if isJsWs c then collapseSt (.pend c) rest else c :: collapseSt .norm rest
  | .pend w, c :: rest =>
    if isJsWs c then ' ' :: collapseSt .run rest
    else w :: c :: collapseSt .norm rest
  | .run, c :: rest =>
    if isJsWs c then collapseSt .run rest else c :: collapseSt .norm rest

/-- `replace(/\s{2,}/g, ' ')` on a character list. -/
def collapseWs (cs : List Char) : List Char := collapseSt .norm cs

/-- `String.prototype.split` on runs of characters satisfying `p` (the JS
semantics for splitting on a regex such as `/\s+/` or `/\W+/`, including the
empty fragments produced at the ends).  The boolean is true while scanning a
separator run; `acc` holds the current fragment reversed. -/
def splitSt (p : Char → Bool) : Bool → List Char → List Char → List (List Char)
  | false, acc, [] => [acc.reverse]
  | false, acc, c :: rest =>
    if p c then acc.reverse :: splitSt p true [] rest
    else splitSt p false (c :: acc) rest
  | true, _, [] => [[]]
  | true, _, c :: rest =>
    if p c then splitSt p true [] rest else splitSt p false [c] rest

/-- `str.split` on runs of `p`-characters. -/
def splitRuns (p : Char → Bool) (cs : List Char) : List (List Char) :=
  splitSt p false [] cs

/-- `str.split(/\s+/)` as a list of strings. -/
def jsSplitWs (s : String) : List String :=
  (splitRuns isJsWs s.data).map String.mk

/-- Count occurrences of a single character (`split(c).length - 1`). -/
def countChar (c : Char) (s : String) : Nat := s.data.count c

/-- Whether `needle` occurs at the start of `hay` (character lists). -/
def startsWithList : List Char → List Char → Bool
  | [], _ => true
  | _ :: _, [] => false
  | a :: as, b :: bs => a = b && startsWithList as bs

/-- Whether `needle` occurs anywhere inside `hay` (character lists); this is
the unanchored regex/`includes` substring test. -/
def containsList (needle : List Char) : List Char → Bool
  | [] => needle.isEmpty
  | b :: rest => startsWithList needle (b :: rest) || containsList needle rest

/-- Substring containment on strings (`hay` contains `needle`). -/
def containsSub (hay needle : String) : Bool := containsList needle.data hay.data

/-- `s.startsWith(pre)`. -/
def startsWithS (s pre : String) : Bool := startsWithList pre.data s.data

/-- `s.endsWith(suf)`. -/
def endsWithS (s suf : String) : Bool :=
  startsWithList suf.data.reverse s.data.reverse

/-! ### The DOM model

The parsed document is a tree of nodes, mirroring the cheerio/domhandler
node kinds consulted by the library: elements (tag, attribute list,
children), text, comments, directives and CDATA sections.  The transient
`_readabilityDataTable` annotation that `markDataTables` attaches to
`<table>` elements is modelled as a boolean field on elements.  The child
list is a mutual inductive (`NodeList`) so that the traversals below are
structural recursions.  The document root is a `NodeList`. -/

mutual
inductive Node where
  | element (tag : String) (attrs : List (String × String)) (dataTable : Bool)
      (children : NodeList)
  | text (data : String)
  | comment (data : String)
  | directive (data : String)
  | cdata (data : String)

inductive NodeList where
  | nil
  | cons (head : Node) (tail : NodeList)
end

/-- Build a `NodeList` from a `List Node`. -/
def nodesOf : List Node → NodeList
  | [] => .nil
  | n :: ns => .cons n (nodesOf ns)

/-- Flatten a `NodeList` into a `List Node` (one level, no recursion). -/
def NodeList.toList : NodeList → List Node
  | .nil => []
  | .cons n ns => n :: ns.toList

def NodeList.append : NodeList → NodeList → NodeList
  | .nil, l => l
  | .cons n ns, l => .cons n (ns.append l)

/-- Convenience constructor for ordinary elements. -/
def el (tag : String) (attrs : List (String × String)) (children : List Node) :
    Node :=
  .element tag attrs false (nodesOf children)

def Node.isElement : Node → Bool
  | .element _ _ _ _ => true
  | _ => false

def Node.tagOf : Node → String
  | .element t _ _ _ => t
  | _ => ""

def Node.childrenOf : Node → List Node
  | .element _ _ _ cs => cs.toList
  | _ => []

def Node.attrsOf : Node → List (String × String)
  | .element _ a _ _ => a
  | _ => []

/-- Attribute access (`$el.attr(name)`). -/
def Node.getAttr (n : Node) (name : String) : Option String :=
  (n.attrsOf.find? (fun kv => kv.1 = name)).map (·.2)

/-- The `_readabilityDataTable` annotation (`isDataTable` in utils.ts). -/
def isDataTable : Node → Bool
  | .element _ _ dt _ => dt
  | _ => false

mutual
/-- All proper descendants of a node in document (pre)order; `$node.find(...)`
filters this list. -/
def Node.descendants : Node → List Node
  | .element _ _ _ cs => descendantsList cs
  | _ => []

/-- All members of a node list together with their descendants, in document
order. -/
def descendantsList : NodeList → List Node
  | .nil => []
  | .cons n ns => n :: (n.descendants ++ descendantsList ns)
end

/-- `$node.find(sel)` for a comma list of tag selectors: the descendant
elements whose tag is in `tags`, in document order. -/
def findTags (tags : List String) (n : Node) : List Node :=
  n.descendants.filter (fun d => d.isElement && tags.contains d.tagOf)

/-- `$(sel)` over the whole document. -/
def findTagsDoc (tags : List String) (doc : NodeList) : List Node :=
  (descendantsList doc).filter (fun d => d.isElement && tags.contains d.tagOf)

/-- The element children of a node (`$node.children()`). -/
def elementChildren (n : Node) : List Node := n.childrenOf.filter Node.isElement

mutual
/-- `$node.text()`: the concatenated data of all text (and CDATA)
descendants. -/
def Node.textContent : Node → String
  | .element _ _ _ cs => textContentList cs
  | .text s => s
  | .cdata s => s
  | .comment _ => ""
  | .directive _ => ""

/-- `$().text()` over a node list. -/
def textContentList : NodeList → String
  | .nil => ""
  | .cons n ns => n.textContent ++ textContentList ns
end

/-- `$('*').length`: the number of elements in the document. -/
def countElements (doc : NodeList) : Nat :=
  ((descendantsList doc).filter Node.isElement).length

/-! ### textUtils.ts -/

/-- `getInnerText($el)` with `normalizeSpaces = true` (the default): the
text content, trimmed, with whitespace runs collapsed. -/
def getInnerText (n : Node) : String :=
  String.mk (collapseWs (jsTrim n.textContent).data)

/-- `getInnerText($el, false)`: trimmed text content without normalization. -/
def getInnerTextRaw (n : Node) : String := jsTrim n.textContent

/-- `wordCount`: `str.split(/\s+/).length`. -/
def wordCount (s : String) : Nat := (jsSplitWs s).length

/-- The `hashUrl` regex `/^#.+/`: a leading `#` followed by at least one
character matched by `.` (not a line terminator). -/
def hashUrlTest (s : String) : Bool :=
  match s.data with
  | '#' :: c :: _ => !isJsLineTerm c
  | _ => false

/-- The per-anchor coefficient in `getLinkDensity`: 0.3 when the `href`
attribute is present, non-empty and matches `hashUrl`, else 1. -/
def anchorCoefficient (a : Node) : ℚ :=
  match a.getAttr "href" with
  | some href => if href ≠ "" && hashUrlTest href then 3 / 10 else 1
  | none => 1

/-- `getLinkDensity($, $element)`: total anchor text length (weighted by
`anchorCoefficient`) divided by the element's text length; 0 when the
element has no text. -/
def getLinkDensity (n : Node) : ℚ :=
  let textLength := (getInnerText n).length
  if textLength = 0 then 0
  else
    ((findTags ["a"] n).foldl
      (fun acc a => acc + ((getInnerText a).length : ℚ) * anchorCoefficient a) 0)
      / (textLength : ℚ)

/-- A word character for the `tokenize` regex `/\W+/` (no `u` flag, so the
ASCII interpretation). -/
def isWordChar (c : Char) : Bool :=
  ('a' ≤ c && c ≤ 'z') || ('A' ≤ c && c ≤ 'Z') || ('0' ≤ c && c ≤ '9') || c = '_'

/-- `text.toLowerCase().split(tokenize).filter(Boolean)`. -/
def jsTokens (s : String) : List String :=
  ((splitRuns (fun c => !isWordChar c) (jsToLower s).data).map String.mk).filter
    (fun t => t ≠ "")

/-- `textSimilarity(textA, textB)` from textUtils.ts. -/
def textSimilarity (textA textB : String) : ℚ :=
  let tokensA := jsTokens textA
  let tokensB := jsTokens textB
  if tokensA.isEmpty || tokensB.isEmpty then 0
  else
    let uniqTokensB := tokensB.filter (fun token => !tokensA.contains token)
    let distanceB : ℚ :=
      ((String.intercalate " " uniqTokensB).length : ℚ)
        / ((String.intercalate " " tokensB).length : ℚ)
    1 - distanceB

/-- `isValidByline`: trimmed length strictly between 0 and 100. -/
def isValidByline (byline : String) : Bool :=
  let length := (jsTrim byline).length
  0 < length && length < 100

/-- JavaScript truthiness of an optional string: present and non-empty. -/
def truthyS : Option String → Bool
  | some s => s ≠ ""
  | none => false

/-! ### regexes.ts -/

/-- The `positive` regex: class/id fragments that indicate content. -/
def positiveTest (s : String) : Bool :=
  let f := jsToLower s
  containsSub f "article" || containsSub f "body" || containsSub f "content" ||
  containsSub f "entry" || containsSub f "hentry" || containsSub f "h-entry" ||
  containsSub f "main" || containsSub f "page" || containsSub f "pagination" ||
  containsSub f "post" || containsSub f "text" || containsSub f "blog" ||
  containsSub f "story"

/-- The `negative` regex: class/id fragments that indicate boilerplate.  The
alternatives `^hid$`, ` hid$`, ` hid ` and `^hid ` carry their anchors and
spaces. -/
def negativeTest (s : String) : Bool :=
  let f := jsToLower s
  containsSub f "-ad-" || containsSub f "hidden" ||
  f = "hid" || endsWithS f " hid" || containsSub f " hid " || startsWithS f "hid " ||
  containsSub f "banner" || containsSub f "combx" || containsSub f "comment" ||
  containsSub f "com-" || containsSub f "contact" || containsSub f "foot" ||
  containsSub f "footer" || containsSub f "footnote" || containsSub f "gdpr" ||
  containsSub f "masthead" || containsSub f "media" || containsSub f "meta" ||
  containsSub f "outbrain" || containsSub f "promo" || containsSub f "related" ||
  containsSub f "scroll" || containsSub f "share" || containsSub f "shoutbox" ||
  containsSub f "sidebar" || containsSub f "skyscraper" || containsSub f "sponsor" ||
  containsSub f "shopping" || containsSub f "tags" || containsSub f "tool" ||
  containsSub f "widget"

/-- The default `videos` regex: `//`, an optional `www.`, then one of the
known video hosts. -/
def videosTest (s : String) : Bool :=
  let f := jsToLower s
  ["dailymotion.com", "youtube.com", "youtube-nocookie.com", "player.vimeo.com",
   "v.qq.com", "archive.org", "upload.wikimedia.org", "player.twitch.tv"].any
    (fun h => containsSub f ("//" ++ h) || containsSub f ("//www." ++ h))

/-- The `adWords` regex: the whole (case-folded) string is one of the ad
words. -/
def adWordsTest (s : String) : Bool :=
  ["ad", "advertising", "advertisement", "pub", "publicité", "werb", "werbung",
   "广告", "реклама", "anuncio"].contains (jsToLower s)

/-- The `loadingWords` regex: a loading word optionally followed by `…` or
`...`. -/
def loadingWordsTest (s : String) : Bool :=
  let f := jsToLower s
  ["loading", "正在加载", "загрузка", "chargement", "cargando"].any
    (fun b => f = b || f = b ++ "…" || f = b ++ "...")

/-! ### ancestors.ts -/

/-- `hasAncestorTag` climbing an explicit ancestor chain (nearest ancestor
first), with the source's depth accounting: `maxDepth > 0 && depth > maxDepth`
aborts, negative `maxDepth` means unlimited. -/
def hasAncestorTagAux (tagName : String) (maxDepth : Int) (filterFn : Node → Bool) :
    List Node → Int → Bool
  | [], _ => false
  | p :: rest, depth =>
    if maxDepth > 0 && depth > maxDepth then false
    else if p.isElement && p.tagOf = tagName && filterFn p then true
    else hasAncestorTagAux tagName maxDepth filterFn rest (depth + 1)

/-- `hasAncestorTag(node, tagName, maxDepth, filterFn)`; the parent chain of
the node is passed explicitly as `ancestors`. -/
def hasAncestorTag (ancestors : List Node) (tagName : String) (maxDepth : Int)
    (filterFn : Node → Bool) : Bool :=
  hasAncestorTagAux tagName maxDepth filterFn ancestors 0

/-! ### A model of cheerio's `.html()` serializer

Serialization back to a string is an external collaborator of the library;
this is a straightforward model of it, used only where the source calls
`$el.html()` (the `allowedVideoRegex` test on `<object>` inner HTML). -/

def escTextChar (c : Char) : String :=
  if c = '&' then "&amp;" else if c = '<' then "&lt;"
  else if c = '>' then "&gt;" else String.mk [c]

def escAttrChar (c : Char) : String :=
  if c = '&' then "&amp;" else if c = '"' then "&quot;" else String.mk [c]

def escText (s : String) : String := String.join (s.data.map escTextChar)

def serializeAttrs (attrs : List (String × String)) : String :=
  attrs.foldl
    (fun acc kv => acc ++ " " ++ kv.1 ++ "=\"" ++ String.join (kv.2.data.map escAttrChar) ++ "\"")
    ""

/-- HTML void elements, rendered without a closing tag. -/
def isVoidTag (t : String) : Bool :=
  ["area", "base", "br", "col", "embed", "hr", "img", "input", "link", "meta",
   "param", "source", "track", "wbr"].contains t

mutual
def serializeNode : Node → String
  | .element t a _ cs =>
    if isVoidTag t then "<" ++ t ++ serializeAttrs a ++ ">"
    else "<" ++ t ++ serializeAttrs a ++ ">" ++ serializeList cs ++ "</" ++ t ++ ">"
  | .text s => escText s
  | .comment s => "<!--" ++ s ++ "-->"
  | .directive s => "<" ++ s ++ ">"
  | .cdata s => "<![CDATA[" ++ s ++ "]]>"

def serializeList : NodeList → String
  | .nil => ""
  | .cons n ns => serializeNode n ++ serializeList ns
end

/-- `$el.html()`: the serialized children of an element. -/
def innerHtml : Node → String
  | .element _ _ _ cs => serializeList cs
  | _ => ""

/-! ### Class weight and text density -/

/-- `getClassWeight(el)`: 0 when the `WEIGHT_CLASSES` flag is inactive, else
±25 per matching `class` and `id` attribute (empty attribute values are
falsy and skipped). -/
def getClassWeight (weightClasses : Bool) (n : Node) : Int :=
  if !weightClasses then 0
  else
    let classWeight : Option String → Int := fun a =>
      match a with
      | some v =>
        if v = "" then 0
        else (if negativeTest v then -25 else 0) + (if positiveTest v then 25 else 0)
      | none => 0
    classWeight (n.getAttr "class") + classWeight (n.getAttr "id")

/-- `getTextDensity($el, tags)`: summed inner-text length of the matching
descendants divided by the element's inner-text length, 0 when the element
has no text. -/
def getTextDensity (n : Node) (tags : List String) : ℚ :=
  let textLength := (getInnerText n).length
  if textLength = 0 then 0
  else
    ((findTags tags n).foldl (fun acc child => acc + ((getInnerText child).length : ℚ)) 0)
      / (textLength : ℚ)

/-- `DIV_TO_P_ELEMS` from utils.ts. -/
def DIV_TO_P_ELEMS : List String :=
  ["blockquote", "dl", "div", "img", "ol", "p", "pre", "table", "ul"]

/-! ### cleanConditionally -/

/-- The four early `return false` exemptions at the top of the
`cleanConditionally` callback: the node is itself a marked data table, it has
a data-table or `<code>` ancestor, or it contains a marked data table. -/
def cleanConditionallyExempt (tag : String) (ancestors : List Node) (node : Node) :
    Bool :=
  (tag = "table" && isDataTable node) ||
  hasAncestorTag ancestors "table" (-1) isDataTable ||
  hasAncestorTag ancestors "code" 3 (fun _ => true) ||
  (findTags ["table"] node).any isDataTable

/-- The `return false` taken inside the embeds loop: some
`object`/`embed`/`iframe` descendant has an attribute value matching
`allowedVideoRegex`, or is an `<object>` whose inner HTML matches it. -/
def embedVideoKeep (videoTest : String → Bool) (node : Node) : Bool :=
  (findTags ["object", "embed", "iframe"] node).any
    (fun e =>
      e.attrsOf.any (fun kv => videoTest kv.2) ||
      (e.tagOf = "object" && videoTest (innerHtml e)))

/-- `charCount` in `cleanConditionally`: `getInnerText($node).split(',').length - 1`. -/
def ccCommaCount (node : Node) : Nat := countChar ',' (getInnerText node)

/-- The `removeNodes` callback of `cleanConditionally($el, tag)`, deciding
whether a matched element is removed.  `ancestors` is the element's parent
chain (nearest first); `videoTest`, `linkDensityModifier` come from the
options and `weightClasses` from the flag set (the `CLEAN_CONDITIONALLY`
flag is active, otherwise `cleanConditionally` does not run at all). -/
def cleanConditionallyRemove (videoTest : String → Bool)
    (linkDensityModifier : ℚ) (weightClasses : Bool) (tag : String)
    (ancestors : List Node) (node : Node) : Bool :=
  if cleanConditionallyExempt tag ancestors node then false
  else
    let isList0 := tag = "ul" || tag = "ol"
    let isList :=
      isList0 ||
        (let listLength : ℚ :=
          (findTags ["ul", "ol"] node).foldl
            (fun acc list => acc + ((getInnerText list).length : ℚ)) 0
        listLength / ((getInnerText node).length : ℚ) > 9 / 10)
    let weight := getClassWeight weightClasses node
    let contentScore : Int := 0
    if weight + contentScore < 0 then true
    else if ccCommaCount node > 10 then false
    else
      let p := (findTags ["p"] node).length
      let img := (findTags ["img"] node).length
      let li : Int := (findTags ["li"] node).length - 100
      let input := (findTags ["input"] node).length
      let headingDensity :=
        getTextDensity node ["h1", "h2", "h3", "h4", "h5", "h6"]
      if embedVideoKeep videoTest node then false
      else
        let embedCount := (findTags ["object", "embed", "iframe"] node).length
        let innerText := getInnerText node
        if adWordsTest innerText || loadingWordsTest innerText then true
        else
          let contentLength := innerText.length
          let linkDensity := getLinkDensity node
          let textishTags := ["span", "li", "td"] ++ DIV_TO_P_ELEMS
          let textDensity := getTextDensity node textishTags
          let isFigureChild := hasAncestorTag ancestors "figure" 3 (fun _ => true)
          let haveToRemove :=
            (!isFigureChild && img > 1 && (p : ℚ) / (img : ℚ) < 1 / 2) ||
            (!isList && li > (p : Int)) ||
            (input > p / 3) ||
            (!isList && !isFigureChild && headingDensity < 9 / 10 &&
              contentLength < 25 && (img = 0 || img > 2) && linkDensity > 0) ||
            (!isList && weight < 25 && linkDensity > 1 / 5 + linkDensityModifier) ||
            (weight ≥ 25 && linkDensity > 1 / 2 + linkDensityModifier) ||
            ((embedCount = 1 && contentLength < 75) || embedCount > 1) ||
            (img = 0 && textDensity = 0)
          if isList && haveToRemove then
            if (elementChildren node).any (fun child => (elementChildren child).length > 1) then
              haveToRemove
            else if img = (findTags ["li"] node).length then false
            else haveToRemove
          else haveToRemove

/-! ### markDataTables -/

/-- `parseInt(s, 10)`: skip leading whitespace, optional sign, then a decimal
digit prefix; `none` models `NaN`. -/
def jsParseInt (s : String) : Option Int :=
  let digitsVal : List Char → Option Nat := fun cs =>
    let ds := cs.takeWhile (fun c => '0' ≤ c && c ≤ '9')
    if ds.isEmpty then none
    else some (ds.foldl (fun a c => a * 10 + (c.toNat - 48)) 0)
  match s.data.dropWhile isJsWs with
  | '-' :: rest => (digitsVal rest).map (fun v => -(v : Int))
  | '+' :: rest => (digitsVal rest).map (fun v => (v : Int))
  | cs => (digitsVal cs).map (fun v => (v : Int))

/-- The `rowspan || 1` / `colspan || 1` computation: a missing, empty or
non-numeric attribute, or the value 0, counts as 1. -/
def spanValue (attr : Option String) : Int :=
  match attr with
  | none => 1
  | some s =>
    if s = "" then 1
    else
      match jsParseInt s with
      | none => 1
      | some 0 => 1
      | some v => v

/-- `getRowAndColumnCount($table)`: rows are the summed `rowspan` of each
`<tr>`; columns are the maximum over rows of the summed `colspan` of the
row's `<td>` cells. -/
def getRowAndColumnCount (table : Node) : Int × Int :=
  let trs := findTags ["tr"] table
  let rows := trs.foldl (fun acc tr => acc + spanValue (tr.getAttr "rowspan")) 0
  let columns := trs.foldl
    (fun acc tr =>
      max acc
        ((findTags ["td"] tr).foldl
          (fun a cell => a + spanValue (cell.getAttr "colspan")) 0))
    0
  (rows, columns)

/-- The per-table body of `markDataTables`: the value assigned to
`_readabilityDataTable`. -/
def markDataTableFlag (table : Node) : Bool :=
  if table.getAttr "role" = some "presentation" then false
  else if table.getAttr "datatable" = some "0" then false
  else if truthyS (table.getAttr "summary") then true
  else if
      ((findTags ["caption"] table).foldl
          (fun acc c => acc ++ c.descendants.filter Node.isElement) []).length > 0 then
    true
  else if (findTags ["col", "colgroup", "tfoot", "thead", "th"] table).length ≠ 0 then
    true
  else if (findTags ["table"] table).length ≠ 0 then false
  else
    let sizeInfo := getRowAndColumnCount table
    if sizeInfo.2 = 1 || sizeInfo.1 = 1 then false
    else if sizeInfo.1 ≥ 10 || sizeInfo.2 > 4 then true
    else sizeInfo.1 * sizeInfo.2 > 10

/-! ### Class cleaning and the page wrapper (grabArticle finalization) -/

/-- `$el.attr(k, v)`: update an existing attribute in place or append it. -/
def setAttrL (attrs : List (String × String)) (k v : String) :
    List (String × String) :=
  if (attrs.find? (fun kv => kv.1 = k)).isSome then
    attrs.map (fun kv => if kv.1 = k then (k, v) else kv)
  else attrs ++ [(k, v)]

/-- `$el.removeAttr(k)`. -/
def removeAttrL (attrs : List (String × String)) (k : String) :
    List (String × String) :=
  attrs.filter (fun kv => kv.1 ≠ k)

mutual
/-- `cleanClasses($el)`: keep only the classes listed in `classesToPreserve`,
drop the `class` attribute when none survive, and recurse into the element
children. -/
def cleanClassesNode (classesToPreserve : List String) : Node → Node
  | .element t attrs dt cs =>
    let raw := ((attrs.find? (fun kv => kv.1 = "class")).map (·.2)).getD ""
    let className :=
      String.intercalate " "
        ((jsSplitWs raw).filter (fun cls => classesToPreserve.contains cls))
    let attrs2 :=
      if className ≠ "" then setAttrL attrs "class" className
      else removeAttrL attrs "class"
    .element t attrs2 dt (cleanClassesList classesToPreserve cs)
  | n => n

def cleanClassesList (classesToPreserve : List String) : NodeList → NodeList
  | .nil => .nil
  | .cons n ns =>
    .cons (cleanClassesNode classesToPreserve n) (cleanClassesList classesToPreserve ns)
end

/-- The end of `grabArticle` when the top candidate did not have to be
created: a fresh `<div id="readability-page-1" class="page">` receives all of
the article content's children and becomes its single child. -/
def wrapArticleContent (articleContent : Node) : Node :=
  match articleContent with
  | .element t a dt cs =>
    .element t a dt
      (.cons
        (.element "div" [("id", "readability-page-1"), ("class", "page")] false cs)
        .nil)
  | n => n

/-- The class-cleaning step of `postProcessContent`: `cleanClasses` runs
exactly when `keepClasses` is false. -/
def postProcessClasses (keepClasses : Bool) (classesToPreserve : List String)
    (n : Node) : Node :=
  if !keepClasses then cleanClassesNode classesToPreserve n else n

/-! ### The grabArticle retry ladder

`grabArticle` is a `while (true)` loop: each pass rebuilds the article from
the restored body snapshot under the current flag set, so the outcome of a
pass is a function of the flags alone; `pass` abstracts that per-pass body.
On failure (`textLength < charThreshold`) the pass is recorded in `attempts`
and one flag is cleared, in the order `STRIP_UNLIKELYS`, `WEIGHT_CLASSES`,
`CLEAN_CONDITIONALLY`; with no flag left to clear, the attempts are sorted by
descending text length (JavaScript's stable sort) and the best one is
returned, or `null` when even it has no text. -/

structure FlagState where
  stripUnlikelys : Bool
  weightClasses : Bool
  cleanConditionally : Bool
deriving DecidableEq, Repr

/-- Number of active flags (the loop's termination measure). -/
def FlagState.count (f : FlagState) : Nat :=
  (if f.stripUnlikelys then 1 else 0) + (if f.weightClasses then 1 else 0) +
    (if f.cleanConditionally then 1 else 0)

/-- The text length of a pass result, as tested against `charThreshold`. -/
def attemptLen (pass : FlagState → Node) (f : FlagState) : Nat :=
  (getInnerText (pass f)).length

def flagsPass1 : FlagState := ⟨true, true, true⟩
def flagsPass2 : FlagState := ⟨false, true, true⟩
def flagsPass3 : FlagState := ⟨false, false, true⟩
def flagsPass4 : FlagState := ⟨false, false, false⟩

def grabLoopAux (pass : FlagState → Node) (charThreshold : Nat)
    (flags : FlagState) (attempts : List (Node × Nat)) : Option Node :=
  let articleContent := pass flags
  let textLength := attemptLen pass flags
  if charThreshold ≤ textLength then some articleContent
  else if flags.stripUnlikelys then
    grabLoopAux pass charThreshold { flags with stripUnlikelys := false }
      (attempts ++ [(articleContent, textLength)])
  else if flags.weightClasses then
    grabLoopAux pass charThreshold { flags with weightClasses := false }
      (attempts ++ [(articleContent, textLength)])
  else if flags.cleanConditionally then
    grabLoopAux pass charThreshold { flags with cleanConditionally := false }
      (attempts ++ [(articleContent, textLength)])
  else
    let atts := attempts ++ [(articleContent, textLength)]
    match atts.mergeSort (fun a b => decide (b.2 ≤ a.2)) with
    | [] => none
    | best :: _ => if best.2 = 0 then none else some best.1
termination_by flags.count
decreasing_by
  all_goals simp_all [FlagState.count]

/-- The retry loop of `grabArticle`, started with every flag active and no
recorded attempts. -/
def grabArticleLoop (pass : FlagState → Node) (charThreshold : Nat) :
    Option Node :=
  grabLoopAux pass charThreshold flagsPass1 []

/-! ### isPhrasingContent.ts -/

def PHRASING_ELEMS : List String :=
  ["abbr", "audio", "b", "bdo", "br", "button", "cite", "code", "data",
   "datalist", "dfn", "em", "embed", "i", "img", "input", "kbd", "label",
   "mark", "math", "meter", "noscript", "object", "output", "progress", "q",
   "ruby", "samp", "script", "select", "small", "span", "strong", "sub",
   "sup", "textarea", "time", "var", "wbr"]

mutual
/-- `isPhrasingContent(node)`: text nodes, the fixed phrasing element set, or
an `a`/`del`/`ins` element all of whose children are phrasing. -/
def isPhrasingContent : Node → Bool
  | .text _ => true
  | .element t _ _ cs =>
    PHRASING_ELEMS.contains t ||
      (["a", "del", "ins"].contains t && allPhrasing cs)
  | _ => false

def allPhrasing : NodeList → Bool
  | .nil => true
  | .cons n ns => isPhrasingContent n && allPhrasing ns
end

/-! ### The pre-pass document cleanup (dom.ts / Readability.parse)

`removeComments` drops comment, directive and CDATA nodes at every level;
`removeNodes($('script, noscript'))` and `removeNodes($('style'))` drop every
element with a matching tag together with its subtree. -/

mutual
def removeCommentsNode : Node → Node
  | .element t a d cs => .element t a d (removeCommentsList cs)
  | n => n

def removeCommentsList : NodeList → NodeList
  | .nil => .nil
  | .cons (.comment _) ns => removeCommentsList ns
  | .cons (.directive _) ns => removeCommentsList ns
  | .cons (.cdata _) ns => removeCommentsList ns
  | .cons n ns => .cons (removeCommentsNode n) (removeCommentsList ns)
end

mutual
def removeTagsNode (tags : List String) : Node → Node
  | .element t a d cs => .element t a d (removeTagsList tags cs)
  | n => n

def removeTagsList (tags : List String) : NodeList → NodeList
  | .nil => .nil
  | .cons n ns =>
    if n.isElement && tags.contains n.tagOf then removeTagsList tags ns
    else .cons (removeTagsNode tags n) (removeTagsList tags ns)
end

mutual
/-- `replaceNodeTags(this.$('font').toArray(), 'span')`: rename every
`<font>` element to `<span>` in place. -/
def replaceFontsNode : Node → Node
  | .element t a d cs =>
    .element (if t = "font" then "span" else t) a d (replaceFontsList cs)
  | n => n

def replaceFontsList : NodeList → NodeList
  | .nil => .nil
  | .cons n ns => .cons (replaceFontsNode n) (replaceFontsList ns)
end

/-! ### replaceBrs -/

/-- A text node whose data matches the `whitespace` regex `/^\s*$/`
(skipped by `nextNode`). -/
def isWsText : Node → Bool
  | .text s => s.data.all isJsWs
  | _ => false

def isBrElem : Node → Bool
  | .element t _ _ _ => t = "br"
  | _ => false

/-- Whether `nextNode` applied to the head of the sibling list lands on a
`<br>` element (skipping whitespace text nodes). -/
def nextNodeIsBr : NodeList → Bool
  | .nil => false
  | .cons n ns => if isWsText n then nextNodeIsBr ns else isBrElem n

/-- The `<br>`-chain removal loop: starting after the first `<br>` of a
chain, keep whitespace text nodes, remove the successive `<br>` elements,
and stop at the first other node. -/
def stripChain : NodeList → NodeList
  | .nil => .nil
  | .cons n ns =>
    if isWsText n then .cons n (stripChain ns)
    else if isBrElem n then stripChain ns
    else .cons n ns

/-- `isWhitespace($el)` from textUtils.ts: no inner text, or a `<br>`. -/
def isWhitespaceNode (n : Node) : Bool :=
  (getInnerText n).length = 0 || isBrElem n

/-- The loop that moves following siblings into the freshly created `<p>`:
stop at a `<br>` that is itself followed (next-node-wise) by another `<br>`,
or at the first non-phrasing sibling; every other sibling is collected. -/
def gatherP : NodeList → NodeList × NodeList
  | .nil => (.nil, .nil)
  | .cons n ns =>
    if isBrElem n && nextNodeIsBr ns then (.nil, .cons n ns)
    else if !isPhrasingContent n then (.nil, .cons n ns)
    else
      let g := gatherP ns
      (.cons n g.1, g.2)

/-- The trailing-whitespace trim of the new `<p>`:
`while (p.lastChild && isWhitespace(p.lastChild)) remove`. -/
def dropTrailingWs : NodeList → NodeList
  | .nil => .nil
  | .cons n ns =>
    match dropTrailingWs ns with
    | .nil => if isWhitespaceNode n then .nil else .cons n .nil
    | ns2 => .cons n ns2

theorem sizeOf_stripChain_le : ∀ l : NodeList, sizeOf (stripChain l) ≤ sizeOf l
  | .nil => by simp [stripChain]
  | .cons n ns => by
    have ih := sizeOf_stripChain_le ns
    simp only [stripChain]
    split
    · simp only [NodeList.cons.sizeOf_spec]; omega
    · split
      · simp only [NodeList.cons.sizeOf_spec]; omega
      · omega

theorem sizeOf_gatherP_fst_le : ∀ l : NodeList, sizeOf (gatherP l).1 ≤ sizeOf l
  | .nil => by simp [gatherP]
  | .cons n ns => by
    have ih := sizeOf_gatherP_fst_le ns
    simp only [gatherP]
    split
    · simp only [NodeList.nil.sizeOf_spec, NodeList.cons.sizeOf_spec]; omega
    · split
      · simp only [NodeList.nil.sizeOf_spec, NodeList.cons.sizeOf_spec]; omega
      · simp only [NodeList.cons.sizeOf_spec]; omega

theorem sizeOf_gatherP_snd_le : ∀ l : NodeList, sizeOf (gatherP l).2 ≤ sizeOf l
  | .nil => by simp [gatherP]
  | .cons n ns => by
    have ih := sizeOf_gatherP_snd_le ns
    simp only [gatherP]
    split
    · simp
    · split
      · simp
      · simp only [NodeList.cons.sizeOf_spec]; omega

theorem sizeOf_nodeList_pos : ∀ l : NodeList, 1 ≤ sizeOf l
  | .nil => by simp
  | .cons n ns => by simp only [NodeList.cons.sizeOf_spec]; omega

theorem sizeOf_dropTrailingWs_le : ∀ l : NodeList, sizeOf (dropTrailingWs l) ≤ sizeOf l
  | .nil => by simp [dropTrailingWs]
  | .cons n ns => by
    have ih := sizeOf_dropTrailingWs_le ns
    have hp := sizeOf_nodeList_pos ns
    simp only [dropTrailingWs]
    split
    · split
      · simp only [NodeList.nil.sizeOf_spec, NodeList.cons.sizeOf_spec]; omega
      · simp only [NodeList.nil.sizeOf_spec, NodeList.cons.sizeOf_spec]; omega
    · simp only [NodeList.cons.sizeOf_spec]; omega

theorem sizeOf_node_pos : ∀ n : Node, 1 ≤ sizeOf n
  | .element _ _ _ _ => by simp [Node.element.sizeOf_spec]; omega
  | .text _ => by simp
  | .comment _ => by simp
  | .directive _ => by simp
  | .cdata _ => by simp

mutual
/-- `replaceBrs` on a single node: process the children; when a `<br>` chain
was replaced among the direct children and the node is a `<p>`, it is renamed
to `<div>`. -/
def replaceBrsNode : Node → Node
  | .element t a d cs =>
    let r := replaceBrsChildren cs
    .element (if t = "p" && r.2 then "div" else t) a d r.1
  | n => n
termination_by n => sizeOf n
decreasing_by
  simp [Node.element.sizeOf_spec]

/-- `replaceBrs` over a sibling list.  At the first `<br>` of a chain
(`nextNode` lands on another `<br>`), the successive `<br>`s are removed
(`stripChain`), the first `<br>` becomes a `<p>` that collects the following
phrasing siblings (`gatherP`) with trailing whitespace trimmed, and the scan
continues on the remaining siblings.  The boolean reports whether any
replacement happened at this level. -/
def replaceBrsChildren : NodeList → NodeList × Bool
  | .nil => (.nil, false)
  | .cons n ns =>
    if isBrElem n && nextNodeIsBr ns then
      let stripped := stripChain ns
      let g := gatherP stripped
      let kids := dropTrailingWs g.1
      let r := replaceBrsChildren g.2
      (.cons (.element "p" [] false (replaceBrsKids kids)) r.1, true)
    else
      let r := replaceBrsChildren ns
      (.cons (replaceBrsNode n) r.1, r.2)
termination_by l => sizeOf l
decreasing_by
  · have h1 := sizeOf_gatherP_snd_le (stripChain ns)
    have h2 := sizeOf_stripChain_le ns
    have h3 := sizeOf_node_pos n
    simp only [NodeList.cons.sizeOf_spec]; omega
  · have h1 := sizeOf_dropTrailingWs_le (gatherP (stripChain ns)).1
    have h2 := sizeOf_gatherP_fst_le (stripChain ns)
    have h3 := sizeOf_stripChain_le ns
    have h4 := sizeOf_node_pos n
    simp only [NodeList.cons.sizeOf_spec]; omega
  · simp only [NodeList.cons.sizeOf_spec]; omega
  · simp only [NodeList.cons.sizeOf_spec]; omega

/-- `replaceBrs` applied to each node moved into the new `<p>` (their own
subtrees are processed by later iterations of the `$('br')` loop). -/
def replaceBrsKids : NodeList → NodeList
  | .nil => .nil
  | .cons n ns => .cons (replaceBrsNode n) (replaceBrsKids ns)
termination_by l => sizeOf l
decreasing_by
  · simp only [NodeList.cons.sizeOf_spec]; omega
  · simp only [NodeList.cons.sizeOf_spec]; omega
end

/-- The whole `replaceBrs($)` transform on the document. -/
def replaceBrsDoc (doc : NodeList) : NodeList := (replaceBrsChildren doc).1

/-- The document-cleanup pre-pass of `parse()` when extraction is enabled,
in source order: remove comments/directives/CDATA, remove
`<script>`/`<noscript>`, remove `<style>`, replace `<br>` chains, rename
`<font>` to `<span>`.  `grabArticle` runs on the result. -/
def docBeforeGrab (doc : NodeList) : NodeList :=
  replaceFontsList
    (replaceBrsDoc
      (removeTagsList ["style"]
        (removeTagsList ["script", "noscript"] (removeCommentsList doc))))

/-! ### A JSON model (JavaScript's `JSON.parse`)

`getJSONLD` feeds script contents through `JSON.parse`; this is a standard
recursive-descent parser over a fuel parameter (the fuel is always
sufficient for the input length).  Number literals keep their lexeme; lone
UTF-16 surrogates in `\u` escapes become U+FFFD. -/

inductive Json where
  | null
  | bool (b : Bool)
  | num (lexeme : String)
  | str (s : String)
  | arr (items : List Json)
  | obj (fields : List (String × Json))

/-- Member access `j[k]`; `none` models `undefined`.  For duplicate keys
JavaScript keeps the last occurrence. -/
def jget : Json → String → Option Json
  | .obj kvs, k => (kvs.reverse.find? (fun kv => kv.1 = k)).map (·.2)
  | _, _ => none

/-- Whether a JSON number lexeme denotes zero (its mantissa digits are all
`0`). -/
def numLexIsZero (lex : String) : Bool :=
  let mant := lex.data.takeWhile (fun c => c ≠ 'e' && c ≠ 'E')
  (mant.filter (fun c => '0' ≤ c && c ≤ '9')).all (fun c => c = '0')

/-- JavaScript truthiness of a JSON value. -/
def jsonTruthy : Json → Bool
  | .null => false
  | .bool b => b
  | .str s => s ≠ ""
  | .num lex => !numLexIsZero lex
  | .arr _ => true
  | .obj _ => true

/-- `typeof j[k] === 'string'` access. -/
def jgetStr (j : Json) (k : String) : Option String :=
  match jget j k with
  | some (.str s) => some s
  | _ => none

def hexDigitVal (c : Char) : Option Nat :=
  if '0' ≤ c && c ≤ '9' then some (c.toNat - 48)
  else if 'a' ≤ c && c ≤ 'f' then some (c.toNat - 87)
  else if 'A' ≤ c && c ≤ 'F' then some (c.toNat - 55)
  else none

def hex4 (a b c d : Char) : Option Nat :=
  match hexDigitVal a, hexDigitVal b, hexDigitVal c, hexDigitVal d with
  | some va, some vb, some vc, some vd => some (((va * 16 + vb) * 16 + vc) * 16 + vd)
  | _, _, _, _ => none

/-- A single `\uXXXX` code unit as a character (lone surrogates → U+FFFD). -/
def codeUnitChar (v : Nat) : Char :=
  if 0xD800 ≤ v && v ≤ 0xDFFF then Char.ofNat 0xFFFD else Char.ofNat v

def jpStringAux : List Char → List Char → Option (String × List Char)
  | acc, '"' :: r => some (String.mk acc.reverse, r)
  | acc, '\\' :: '"' :: r => jpStringAux ('"' :: acc) r
  | acc, '\\' :: '\\' :: r => jpStringAux ('\\' :: acc) r
  | acc, '\\' :: '/' :: r => jpStringAux ('/' :: acc) r
  | acc, '\\' :: 'b' :: r => jpStringAux (Char.ofNat 8 :: acc) r
  | acc, '\\' :: 'f' :: r => jpStringAux (Char.ofNat 12 :: acc) r
  | acc, '\\' :: 'n' :: r => jpStringAux ('\n' :: acc) r
  | acc, '\\' :: 'r' :: r => jpStringAux (Char.ofNat 13 :: acc) r
  | acc, '\\' :: 't' :: r => jpStringAux ('\t' :: acc) r
  | acc, '\\' :: 'u' :: h1 :: h2 :: h3 :: h4 :: '\\' :: 'u' :: h5 :: h6 :: h7 :: h8 :: r =>
    (match hex4 h1 h2 h3 h4, hex4 h5 h6 h7 h8 with
     | some v1, some v2 =>
       if 0xD800 ≤ v1 && v1 ≤ 0xDBFF && 0xDC00 ≤ v2 && v2 ≤ 0xDFFF then
         jpStringAux (Char.ofNat (0x10000 + (v1 - 0xD800) * 0x400 + (v2 - 0xDC00)) :: acc) r
       else jpStringAux (codeUnitChar v2 :: codeUnitChar v1 :: acc) r
     | _, _ => none)
  | acc, '\\' :: 'u' :: h1 :: h2 :: h3 :: h4 :: r =>
    (match hex4 h1 h2 h3 h4 with
     | some v => jpStringAux (codeUnitChar v :: acc) r
     | none => none)
  | _, '\\' :: _ :: _ => none
  | acc, c :: r => if c.toNat < 32 then none else jpStringAux (c :: acc) r
  | _, [] => none

def jpString (cs : List Char) : Option (String × List Char) := jpStringAux [] cs

def jsonNumChar (c : Char) : Bool :=
  ('0' ≤ c && c ≤ '9') || c = '-' || c = '+' || c = '.' || c = 'e' || c = 'E'

def jpNumber (cs : List Char) : Option (Json × List Char) :=
  let lex := cs.takeWhile jsonNumChar
  if lex.any (fun c => '0' ≤ c && c ≤ '9') then
    some (.num (String.mk lex), cs.dropWhile jsonNumChar)
  else none

def jsonWsChar (c : Char) : Bool :=
  c = ' ' || c = '\t' || c = '\n' || c.toNat = 13

mutual
def jpValue : Nat → List Char → Option (Json × List Char)
  | 0, _ => none
  | fuel + 1, cs =>
    match cs.dropWhile jsonWsChar with
    | 'n' :: 'u' :: 'l' :: 'l' :: r => some (.null, r)
    | 't' :: 'r' :: 'u' :: 'e' :: r => some (.bool true, r)
    | 'f' :: 'a' :: 'l' :: 's' :: 'e' :: r => some (.bool false, r)
    | '"' :: r => (jpString r).map (fun p => (.str p.1, p.2))
    | '[' :: r =>
      (match r.dropWhile jsonWsChar with
       | ']' :: r2 => some (.arr [], r2)
       | _ => jpArrayLoop fuel [] r)
    | '{' :: r =>
      (match r.dropWhile jsonWsChar with
       | '}' :: r2 => some (.obj [], r2)
       | _ => jpObjectLoop fuel [] r)
    | cs2 => jpNumber cs2

def jpArrayLoop : Nat → List Json → List Char → Option (Json × List Char)
  | 0, _, _ => none
  | fuel + 1, acc, cs =>
    match jpValue fuel cs with
    | none => none
    | some (v, rest) =>
      match rest.dropWhile jsonWsChar with
      | ',' :: r2 => jpArrayLoop fuel (v :: acc) r2
      | ']' :: r2 => some (.arr (v :: acc).reverse, r2)
      | _ => none

def jpObjectLoop : Nat → List (String × Json) → List Char → Option (Json × List Char)
  | 0, _, _ => none
  | fuel + 1, acc, cs =>
    match cs.dropWhile jsonWsChar with
    | '"' :: r =>
      (match jpString r with
       | none => none
       | some (k, r2) =>
         match r2.dropWhile jsonWsChar with
         | ':' :: r3 =>
           (match jpValue fuel r3 with
            | none => none
            | some (v, r4) =>
              match r4.dropWhile jsonWsChar with
              | ',' :: r5 => jpObjectLoop fuel ((k, v) :: acc) r5
              | '}' :: r5 => some (.obj ((k, v) :: acc).reverse, r5)
              | _ => none)
         | _ => none)
    | _ => none
end

/-- `JSON.parse` (returns `none` on a syntax error, which the source
catches). -/
def jsonParse (s : String) : Option Json :=
  match jpValue (2 * s.length + 4) s.data with
  | some (v, rest) => if (rest.dropWhile jsonWsChar).isEmpty then some v else none
  | none => none

/-! ### unescapeHtmlEntities.ts -/

/-- The first replacement pass: `&(quot|amp|apos|lt|gt);`. -/
def unescapeNamed : List Char → List Char
  | '&' :: 'q' :: 'u' :: 'o' :: 't' :: ';' :: r => '"' :: unescapeNamed r
  | '&' :: 'a' :: 'm' :: 'p' :: ';' :: r => '&' :: unescapeNamed r
  | '&' :: 'a' :: 'p' :: 'o' :: 's' :: ';' :: r => '\'' :: unescapeNamed r
  | '&' :: 'l' :: 't' :: ';' :: r => '<' :: unescapeNamed r
  | '&' :: 'g' :: 't' :: ';' :: r => '>' :: unescapeNamed r
  | c :: r => c :: unescapeNamed r
  | [] => []

/-- Numeric character references replaced by a conforming parser: 0, out of
range, and surrogates become U+FFFD. -/
def fromCodePointFFFD (num : Nat) : Char :=
  if num = 0 || num > 0x10FFFF || (0xD800 ≤ num && num ≤ 0xDFFF) then
    Char.ofNat 0xFFFD
  else Char.ofNat num

mutual
/-- The second replacement pass, `/&#(?:x([0-9a-f]+)|([0-9]+));/gi`, as a
scanner: `unescNorm` looks for `&#`, `unescStart` has consumed `&#` (and the
optional `x`/`X`), `unescDigits` accumulates the digit value (capped, which
preserves the out-of-range behaviour) while keeping the raw consumed
characters, and `unescFlush` re-emits them when the reference fails to
close. -/
def unescNorm : List Char → List Char
  | [] => []
  | '&' :: '#' :: rest => unescStart false ['#', '&'] rest
  | c :: rest => c :: unescNorm rest

def unescStart : Bool → List Char → List Char → List Char
  | false, raw, c :: rest =>
    if c = 'x' || c = 'X' then unescStart true (c :: raw) rest
    else if '0' ≤ c && c ≤ '9' then
      unescDigits false (c.toNat - 48) (c :: raw) rest
    else raw.reverse ++ unescFlush c rest
  | true, raw, c :: rest =>
    (match hexDigitVal c with
     | some d => unescDigits true d (c :: raw) rest
     | none => raw.reverse ++ unescFlush c rest)
  | _, raw, [] => raw.reverse

def unescDigits : Bool → Nat → List Char → List Char → List Char
  | _, val, _, ';' :: rest => fromCodePointFFFD val :: unescNorm rest
  | isHex, val, raw, c :: rest =>
    (match
        (if isHex then hexDigitVal c
         else if '0' ≤ c && c ≤ '9' then some (c.toNat - 48) else none) with
     | some d =>
       unescDigits isHex (min (val * (if isHex then 16 else 10) + d) 0x110000)
         (c :: raw) rest
     | none => raw.reverse ++ unescFlush c rest)
  | _, _, raw, [] => raw.reverse

/-- Emit the character on which a reference failed and resume scanning; a
new reference can only begin at an `&#` pair, which cannot span the emitted
characters. -/
def unescFlush : Char → List Char → List Char
  | c, [] => [c]
  | '&', '#' :: r2 => unescStart false ['#', '&'] r2
  | c, '&' :: '#' :: r3 => c :: unescStart false ['#', '&'] r3
  | c, c2 :: r2 => c :: c2 :: unescNorm r2
end

/-- `unescapeHtmlEntities(str)` for a present, non-empty string. -/
def unescapeHtmlEntities (s : String) : String :=
  String.mk (unescNorm (unescapeNamed s.data))

/-- `unescapeHtmlEntities` on an optional field (`if (!str) return str`). -/
def unescapeHtmlEntitiesOpt : Option String → Option String
  | none => none
  | some s => if s = "" then some "" else some (unescapeHtmlEntities s)

/-! ### getArticleTitle -/

/-- The separator class `[|\-\\/>»]`. -/
def sepChars : List Char := ['|', '-', '\\', '/', '>', '»']

/-- The hierarchical separator class `[\\/>»]`. -/
def hierChars : List Char := ['\\', '/', '>', '»']

/-- The test ` [cls] `: a separator of the class with a space on both
sides. -/
def containsSpacedSep (seps : List Char) : List Char → Bool
  | a :: b :: c :: rest =>
    (a = ' ' && seps.contains b && c = ' ') || containsSpacedSep seps (b :: c :: rest)
  | _ => false

/-- `replace(/(.*)[|\-\\/>»] .*/gi, '$1')`: the prefix before the last
separator that is followed by a space (`none` when the pattern does not
match, leaving the string unchanged). -/
def lastSepSpacePrefix (seps : List Char) : List Char → Option (List Char)
  | a :: b :: rest =>
    (match lastSepSpacePrefix seps (b :: rest) with
     | some suf => some (a :: suf)
     | none => if seps.contains a && b = ' ' then some [] else none)
  | _ => none

/-- `replace(/[^|\-\\/>»]*[|\-\\/>»](.*)/gi, '$1')`: everything after the
first separator. -/
def afterFirstSep (seps : List Char) : List Char → Option (List Char)
  | [] => none
  | c :: rest => if seps.contains c then some rest else afterFirstSep seps rest

/-- `origTitle.substring(origTitle.lastIndexOf(':') + 1)`. -/
def afterLastColon (cs : List Char) : List Char :=
  if cs.contains ':' then (cs.reverse.takeWhile (fun c => c ≠ ':')).reverse else cs

/-- `origTitle.substring(origTitle.indexOf(':') + 1)`. -/
def afterFirstColon (cs : List Char) : List Char :=
  if cs.contains ':' then (cs.dropWhile (fun c => c ≠ ':')).drop 1 else cs

/-- `origTitle.substr(0, origTitle.indexOf(':'))`. -/
def beforeFirstColon (cs : List Char) : List Char :=
  cs.takeWhile (fun c => c ≠ ':')

/-- `getArticleTitle()`: the title heuristic of §4.11 (separator stripping,
colon handling, single-`<h1>` fallback, and the final word-count revert). -/
def getArticleTitle (doc : NodeList) : String :=
  let origTitle :=
    String.mk
      (collapseWs
        (jsTrim (String.join ((findTagsDoc ["title"] doc).map Node.textContent))).data)
  let step1 :=
    if containsSpacedSep sepChars origTitle.data then
      let cur1 :=
        match lastSepSpacePrefix sepChars origTitle.data with
        | some pre => String.mk pre
        | none => origTitle
      if wordCount cur1 < 3 then
        match afterFirstSep sepChars origTitle.data with
        | some rest => String.mk rest
        | none => cur1
      else cur1
    else if containsSub origTitle ": " then
      let headingMatch :=
        (findTagsDoc ["h1", "h2"] doc).any
          (fun heading => jsTrim heading.textContent = origTitle)
      if headingMatch then origTitle
      else
        let c1 := String.mk (afterLastColon origTitle.data)
        if wordCount c1 < 3 then String.mk (afterFirstColon origTitle.data)
        else if wordCount (String.mk (beforeFirstColon origTitle.data)) > 5 then
          origTitle
        else c1
    else if origTitle.length > 150 || origTitle.length < 15 then
      match findTagsDoc ["h1"] doc with
      | [hOne] => getInnerText hOne
      | _ => origTitle
    else origTitle
  let titleHadHierarchicalSeparators := containsSpacedSep hierChars origTitle.data
  let curTitle := String.mk (collapseWs (jsTrim step1).data)
  let curTitleWordCount := wordCount curTitle
  if curTitleWordCount ≤ 4 &&
      (!titleHadHierarchicalSeparators ||
        curTitleWordCount ≠
          wordCount (String.mk (origTitle.data.filter (fun c => !sepChars.contains c))) - 1) then
    origTitle
  else curTitle

/-! ### getJSONLD -/

/-- The metadata record accumulated from JSON-LD and `<meta>` tags. -/
structure Metadata where
  title : Option String := none
  byline : Option String := none
  excerpt : Option String := none
  siteName : Option String := none
  publishedTime : Option String := none
  datePublished : Option String := none
deriving DecidableEq, Repr

/-- `content.replace(/^\s*<!\[CDATA\[|\]\]>\s*$/g, '')`. -/
def stripCdataWrappers (s : String) : String :=
  let cs := s.data
  let cs1 :=
    let r := cs.dropWhile isJsWs
    if startsWithList "<![CDATA[".data r then r.drop 9 else cs
  let cs2 :=
    let rev := cs1.reverse
    let rr := rev.dropWhile isJsWs
    if startsWithList "]]>".data.reverse rr then (rr.drop 3).reverse else cs1
  String.mk cs2

/-- The `@context` check `^https?:\/\/schema\.org\/?$`. -/
def jsonLdCtxOk (s : String) : Bool :=
  ["http://schema.org", "https://schema.org", "http://schema.org/",
   "https://schema.org/"].contains s

/-- The `jsonLdArticleTypes` regex.  Its anchors bind only to the first and
last alternatives, so the middle alternatives are unanchored substring
matches. -/
def jsonLdTypeOk (t : String) : Bool :=
  startsWithS t "Article" || containsSub t "AdvertiserContentArticle" ||
  containsSub t "NewsArticle" || containsSub t "AnalysisNewsArticle" ||
  containsSub t "AskPublicNewsArticle" || containsSub t "BackgroundNewsArticle" ||
  containsSub t "OpinionNewsArticle" || containsSub t "ReportageNewsArticle" ||
  containsSub t "ReviewNewsArticle" || containsSub t "Report" ||
  containsSub t "SatiricalArticle" || containsSub t "ScholarlyArticle" ||
  containsSub t "MedicalScholarlyArticle" || containsSub t "SocialMediaPosting" ||
  containsSub t "BlogPosting" || containsSub t "LiveBlogPosting" ||
  containsSub t "DiscussionForumPosting" || containsSub t "TechArticle" ||
  endsWithS t "APIReference"

def truthyOptJson : Option Json → Bool
  | some j => jsonTruthy j
  | none => false

/-- `parsed['@graph'].find(it => (it['@type'] || '').match(...))`; the
`Except` error models the `TypeError` thrown on a `null` entry or a truthy
non-string `@type`, which aborts the script (caught by the source). -/
def graphFind : List Json → Except Unit (Option Json)
  | [] => .ok none
  | it :: rest =>
    match it with
    | .null => .error ()
    | _ =>
      match jget it "@type" with
      | some ty =>
        if jsonTruthy ty then
          match ty with
          | .str s => if jsonLdTypeOk s then .ok (some it) else graphFind rest
          | _ => .error ()
        else graphFind rest
      | none => graphFind rest

/-- `parsed.author.map(author => author?.name?.trim()).filter(Boolean)`;
the error models the `TypeError` of `.trim()` on a truthy non-string name. -/
def ldAuthors : List Json → Except Unit (List String)
  | [] => .ok []
  | a :: rest =>
    match a with
    | .null => ldAuthors rest
    | _ =>
      match jget a "name" with
      | none => ldAuthors rest
      | some .null => ldAuthors rest
      | some (.str s) =>
        let t := jsTrim s
        if t = "" then ldAuthors rest
        else (ldAuthors rest).map (fun r => t :: r)
      | some _ => .error ()

/-- The field extraction once a script has passed the `@context`/`@type`
checks (`metadata = {}` onwards).  When the author array raises (`ldAuthors`
errors), only the fields assigned before the throw survive (the title). -/
def ldExtract (htmlTitle : String) (parsed : Json) : Metadata :=
  let title :=
    match jgetStr parsed "name", jgetStr parsed "headline" with
    | some nm, some hl =>
      if nm ≠ hl then
        let nameMatches := textSimilarity nm htmlTitle > 3 / 4
        let headlineMatches := textSimilarity hl htmlTitle > 3 / 4
        some (if headlineMatches && !nameMatches then hl else nm)
      else some (jsTrim nm)
    | some nm, none => some (jsTrim nm)
    | none, some hl => some (jsTrim hl)
    | none, none => none
  let bylineResult : Option String × Bool :=
    match jget parsed "author" with
    | none => (none, false)
    | some a =>
      if !jsonTruthy a then (none, false)
      else
        match jgetStr a "name" with
        | some s => (some (jsTrim s), false)
        | none =>
          match a with
          | .arr (a0 :: rest) =>
            if jsonTruthy a0 && (jgetStr a0 "name").isSome then
              match ldAuthors (a0 :: rest) with
              | .ok names => (some (String.intercalate ", " names), false)
              | .error _ => (none, true)
            else (none, false)
          | _ => (none, false)
  if bylineResult.2 then { title := title }
  else
    { title := title,
      byline := bylineResult.1,
      excerpt := (jgetStr parsed "description").map jsTrim,
      siteName :=
        match jget parsed "publisher" with
        | some pub =>
          if jsonTruthy pub then (jgetStr pub "name").map jsTrim else none
        | none => none,
      publishedTime := none,
      datePublished := (jgetStr parsed "datePublished").map jsTrim }

/-- The body of the `each` over one `ld+json` script: parse failures and
thrown `TypeError`s are caught and leave the previous metadata; a script
that passes the checks replaces it wholesale. -/
def processLdScript (htmlTitle : String) (prev : Option Metadata)
    (content : String) : Option Metadata :=
  match jsonParse (stripCdataWrappers content) with
  | none => prev
  | some parsed0 =>
    match jget parsed0 "@context" with
    | none => prev
    | some ctx =>
      if !jsonTruthy ctx then prev
      else
        match ctx with
        | .str ctxs =>
          if !jsonLdCtxOk ctxs then prev
          else
            let parsedE : Except Unit (Option Json) :=
              if !truthyOptJson (jget parsed0 "@type") then
                match jget parsed0 "@graph" with
                | some (.arr g) => graphFind g
                | _ => .ok (some parsed0)
              else .ok (some parsed0)
            match parsedE with
            | .error _ => prev
            | .ok none => prev
            | .ok (some parsed) =>
              match jget parsed "@type" with
              | none => prev
              | some ty =>
                if !jsonTruthy ty then prev
                else
                  match ty with
                  | .str tys =>
                    if !jsonLdTypeOk tys then prev
                    else some (ldExtract htmlTitle parsed)
                  | _ => prev
        | _ => prev

/-- `$('script[type="application/ld+json"]')`. -/
def ldJsonScripts (doc : NodeList) : List Node :=
  (findTagsDoc ["script"] doc).filter
    (fun e => e.getAttr "type" = some "application/ld+json")

/-- `getJSONLD()`: fold the scripts in document order; `metadata || {}` at
the end. -/
def getJSONLD (doc : NodeList) : Metadata :=
  ((ldJsonScripts doc).foldl
      (fun prev s => processLdScript (getArticleTitle doc) prev s.textContent)
      none).getD {}

/-! ### getArticleMetadata -/

def metaPropPrefixes : List String := ["article", "dc", "dcterm", "og", "twitter"]

def metaPropFields : List String :=
  ["author", "creator", "description", "published_time", "title", "site_name"]

/-- An attempt to match the `property` pattern
`/\s*(article|dc|dcterm|og|twitter)\s*:\s*(author|creator|description|published_time|title|site_name)\s*/gi`
at the current position (the input is already case-folded); on success the
returned key is the match lowercased with whitespace removed, which is
exactly `prefix:field`.  Alternatives are tried in regex order, which
handles the `dc`/`dcterm` backtracking. -/
def matchPropAt (cs : List Char) : Option String :=
  let cs1 := cs.dropWhile isJsWs
  ((metaPropPrefixes.filterMap
      (fun pre =>
        if startsWithList pre.data cs1 then
          match (cs1.drop pre.data.length).dropWhile isJsWs with
          | ':' :: r2 =>
            let r3 := r2.dropWhile isJsWs
            (metaPropFields.find? (fun fld => startsWithList fld.data r3)).map
              (fun fld => pre ++ ":" ++ fld)
          | _ => none
        else none))).head?

/-- `elementProperty.match(propertyPattern)` with `matches[0]`: the first
match in left-to-right scan order. -/
def scanPropMatch : List Char → Option String
  | [] => none
  | c :: rest =>
    match matchPropAt (c :: rest) with
    | some k => some k
    | none => scanPropMatch rest

def propertyFirstMatchKey (s : String) : Option String :=
  scanPropMatch (jsToLower s).data

def metaNamePrefixes : List String :=
  ["dc", "dcterm", "og", "twitter", "parsely", "weibo:article", "weibo:webpage"]

def metaNameFields : List String :=
  ["author", "creator", "pub-date", "description", "title", "site_name"]

/-- A field followed by optional whitespace and the end of the string. -/
def nameFieldEnd (r : List Char) : Bool :=
  metaNameFields.any
    (fun fld =>
      startsWithList fld.data r && ((r.drop fld.data.length).dropWhile isJsWs).isEmpty)

/-- The anchored `name` pattern
`/^\s*(?:(dc|dcterm|og|twitter|parsely|weibo:(article|webpage))\s*[-.:]\s*)?(author|creator|pub-date|description|title|site_name)\s*$/i`. -/
def namePatternTest (s : String) : Bool :=
  let cs := (jsToLower s).data.dropWhile isJsWs
  nameFieldEnd cs ||
    metaNamePrefixes.any
      (fun pre =>
        startsWithList pre.data cs &&
          (match (cs.drop pre.data.length).dropWhile isJsWs with
           | c :: r2 =>
             (c = '-' || c = '.' || c = ':') && nameFieldEnd (r2.dropWhile isJsWs)
           | [] => false))

/-- `name.toLowerCase().replace(/\s/g, '').replace(/\./g, ':')`. -/
def normalizeMetaName (s : String) : String :=
  String.mk
    (((jsToLower s).data.filter (fun c => !isJsWs c)).map
      (fun c => if c = '.' then ':' else c))

/-- `values[key] = v` (assignment overrides earlier values). -/
def updateAssoc (m : List (String × String)) (k v : String) :
    List (String × String) :=
  if (m.find? (fun kv => kv.1 = k)).isSome then
    m.map (fun kv => if kv.1 = k then (k, v) else kv)
  else m ++ [(k, v)]

def valuesGet (m : List (String × String)) (k : String) : Option String :=
  (m.find? (fun kv => kv.1 = k)).map (·.2)

/-- The `values` map built from the `<meta>` elements: elements without
truthy `content` are skipped; a truthy `property` attribute is matched first
and wins; otherwise a truthy `name` matching the name pattern contributes
its normalized form. -/
def buildMetaValues (doc : NodeList) : List (String × String) :=
  (findTagsDoc ["meta"] doc).foldl
    (fun values e =>
      let content := e.getAttr "content"
      if !truthyS content then values
      else
        let contentV := jsTrim (content.getD "")
        match
          (if truthyS (e.getAttr "property") then
            propertyFirstMatchKey ((e.getAttr "property").getD "")
          else none) with
        | some key => updateAssoc values key contentV
        | none =>
          if truthyS (e.getAttr "name") &&
              namePatternTest ((e.getAttr "name").getD "") then
            updateAssoc values (normalizeMetaName ((e.getAttr "name").getD ""))
              contentV
          else values)
    []

/-- JavaScript `a || b` on optional strings (empty strings are falsy). -/
def jsOrS (a b : Option String) : Option String := if truthyS a then a else b

/-- `getArticleMetadata(jsonld)`: the fallback chains over JSON-LD and the
`values` map, the `getArticleTitle` fallback, and the final HTML-entity
unescaping of every field. -/
def getArticleMetadata (doc : NodeList) (jsonld : Metadata) : Metadata :=
  let values := buildMetaValues doc
  let v := valuesGet values
  let title0 :=
    jsOrS jsonld.title (jsOrS (v "dc:title") (jsOrS (v "dcterm:title")
      (jsOrS (v "og:title") (jsOrS (v "weibo:article:title")
        (jsOrS (v "weibo:webpage:title") (jsOrS (v "title")
          (jsOrS (v "twitter:title") (v "parsely-title"))))))))
  let title1 := if !truthyS title0 then some (getArticleTitle doc) else title0
  let byline :=
    jsOrS jsonld.byline (jsOrS (v "dc:creator") (jsOrS (v "dcterm:creator")
      (jsOrS (v "author") (v "parsely-author"))))
  let excerpt :=
    jsOrS jsonld.excerpt (jsOrS (v "dc:description") (jsOrS (v "dcterm:description")
      (jsOrS (v "og:description") (jsOrS (v "weibo:article:description")
        (jsOrS (v "weibo:webpage:description") (jsOrS (v "description")
          (v "twitter:description")))))))
  let siteName := jsOrS jsonld.siteName (v "og:site_name")
  let publishedTime :=
    jsOrS jsonld.datePublished
      (jsOrS (v "article:published_time") (jsOrS (v "parsely-pub-date") none))
  { title := unescapeHtmlEntitiesOpt title1,
    byline := unescapeHtmlEntitiesOpt byline,
    excerpt := unescapeHtmlEntitiesOpt excerpt,
    siteName := unescapeHtmlEntitiesOpt siteName,
    publishedTime := unescapeHtmlEntitiesOpt publishedTime,
    datePublished := none }

/-! ### Readability options, result, and parse (extraction disabled)

The `serializer` option is modelled as the identity serializer that the
source permits (`content` carries the article subtree itself, `none` when
there is none); `allowedVideoRegex` is the test function of the regex. -/

structure ROptions where
  debug : Bool := false
  maxElemsToParse : Nat := 0
  nbTopCandidates : Nat := 5
  charThreshold : Nat := 500
  keepClasses : Bool := false
  classesToPreserve : List String := ["page"]
  disableJSONLD : Bool := false
  allowedVideoTest : String → Bool := videosTest
  linkDensityModifier : ℚ := 0
  extraction : Bool := true
  baseURI : Option String := none

/-- The record returned by `parse()`. -/
structure ReadabilityResult where
  title : Option String
  byline : Option String
  dir : Option String
  lang : Option String
  content : Option Node
  textContent : Option String
  length : Option Nat
  excerpt : Option String
  siteName : Option String
  publishedTime : Option String

/-- The `maxElemsToParse` guard at the top of `parse()`: the thrown message,
or `none` when parsing may proceed. -/
def parseGuard (doc : NodeList) (options : ROptions) : Option String :=
  if 0 < options.maxElemsToParse then
    let numTags := countElements doc
    if numTags > options.maxElemsToParse then
      some ("Aborting parsing document; " ++ toString numTags ++ " elements found")
    else none
  else none

/-- `parse()` specialised to `extraction = false`: the guard, JSON-LD and
meta extraction run, the whole `if (this.options.extraction)` block is
skipped (so `$articleContent` stays `null`, and so does the excerpt
fallback), and the result record is assembled with `|| null` on each
field. -/
def parseNoExtraction (doc : NodeList) (options : ROptions) :
    Except String ReadabilityResult :=
  match parseGuard doc options with
  | some msg => .error msg
  | none =>
    let jsonld := if options.disableJSONLD then {} else getJSONLD doc
    let metadata := getArticleMetadata doc jsonld
    .ok
      { title := jsOrS metadata.title none,
        byline := jsOrS metadata.byline none,
        dir := none,
        lang := none,
        content := none,
        textContent := none,
        length := none,
        excerpt := jsOrS metadata.excerpt none,
        siteName := jsOrS metadata.siteName none,
        publishedTime := jsOrS metadata.publishedTime none }

/-! ### The pre-pass cleanliness invariant (for the C2 analysis)

`noCommentL` states that no comment, directive or CDATA node occurs anywhere;
`absentL tags` that no element with a tag in `tags` occurs anywhere;
`cleanListB` combines both for the tags removed by the pre-pass. -/

mutual
def noCommentN : Node → Bool
  | .element _ _ _ cs => noCommentL cs
  | .text _ => true
  | .comment _ => false
  | .directive _ => false
  | .cdata _ => false

def noCommentL : NodeList → Bool
  | .nil => true
  | .cons n ns => noCommentN n && noCommentL ns
end

mutual
def absentN (tags : List String) : Node → Bool
  | .element t _ _ cs => !tags.contains t && absentL tags cs
  | _ => true

def absentL (tags : List String) : NodeList → Bool
  | .nil => true
  | .cons n ns => absentN tags n && absentL tags ns
end

/-- The tags removed by the pre-pass of `parse()`. -/
def BANNED_TAGS : List String := ["script", "noscript", "style"]

def cleanNodeB (n : Node) : Bool := noCommentN n && absentN BANNED_TAGS n

def cleanListB (l : NodeList) : Bool := noCommentL l && absentL BANNED_TAGS l

theorem cleanListB_nil : cleanListB .nil = true := rfl

theorem cleanListB_cons (n : Node) (ns : NodeList) :
    cleanListB (.cons n ns) = (cleanNodeB n && cleanListB ns) := by
  simp only [cleanListB, cleanNodeB, noCommentL, absentL]
  cases noCommentN n <;> cases noCommentL ns <;> cases absentN BANNED_TAGS n <;>
    cases absentL BANNED_TAGS ns <;> rfl

theorem noCommentL_removeComments : ∀ l : NodeList, noCommentL (removeCommentsList l) = true
  | .nil => rfl
  | .cons (.element t a d cs) ns => by
    simp only [removeCommentsList, removeCommentsNode, noCommentL, noCommentN]
    rw [noCommentL_removeComments cs, noCommentL_removeComments ns]
    rfl
  | .cons (.text s) ns => by
    simp only [removeCommentsList, removeCommentsNode, noCommentL, noCommentN]
    rw [noCommentL_removeComments ns]
    rfl
  | .cons (.comment s) ns => by
    simp only [removeCommentsList]
    exact noCommentL_removeComments ns
  | .cons (.directive s) ns => by
    simp only [removeCommentsList]
    exact noCommentL_removeComments ns
  | .cons (.cdata s) ns => by
    simp only [removeCommentsList]
    exact noCommentL_removeComments ns
termination_by l => sizeOf l
decreasing_by all_goals (simp only [NodeList.cons.sizeOf_spec, Node.element.sizeOf_spec]; omega)

theorem absentL_removeTags (tags : List String) :
    ∀ l : NodeList, absentL tags (removeTagsList tags l) = true
  | .nil => rfl
  | .cons (.element t a d cs) ns => by
    simp only [removeTagsList, Node.isElement, Node.tagOf, Bool.true_and]
    by_cases h : tags.contains t
    · simp only [h, if_true]
      exact absentL_removeTags tags ns
    · simp only [h, if_false, removeTagsNode, absentL, absentN]
      rw [absentL_removeTags tags cs, absentL_removeTags tags ns]
      simp [h]
  | .cons (.text s) ns => by
    simp only [removeTagsList, Node.isElement, Bool.false_and, if_false,
      removeTagsNode, absentL, absentN]
    exact absentL_removeTags tags ns
  | .cons (.comment s) ns => by
    simp only [removeTagsList, Node.isElement, Bool.false_and, if_false,
      removeTagsNode, absentL, absentN]
    exact absentL_removeTags tags ns
  | .cons (.directive s) ns => by
    simp only [removeTagsList, Node.isElement, Bool.false_and, if_false,
      removeTagsNode, absentL, absentN]
    exact absentL_removeTags tags ns
  | .cons (.cdata s) ns => by
    simp only [removeTagsList, Node.isElement, Bool.false_and, if_false,
      removeTagsNode, absentL, absentN]
    exact absentL_removeTags tags ns
termination_by l => sizeOf l
decreasing_by all_goals (simp only [NodeList.cons.sizeOf_spec, Node.element.sizeOf_spec]; omega)

theorem noCommentL_removeTags (tags : List String) :
    ∀ l : NodeList, noCommentL l = true → noCommentL (removeTagsList tags l) = true
  | .nil, _ => rfl
  | .cons (.element t a d cs) ns, h => by
    simp only [noCommentL, noCommentN, Bool.and_eq_true] at h
    simp only [removeTagsList, Node.isElement, Node.tagOf, Bool.true_and]
    by_cases hc : tags.contains t
    · simp only [hc, if_true]
      exact noCommentL_removeTags tags ns h.2
    · simp only [hc, if_false, removeTagsNode, noCommentL, noCommentN]
      rw [noCommentL_removeTags tags cs h.1, noCommentL_removeTags tags ns h.2]
      rfl
  | .cons (.text s) ns, h => by
    simp only [noCommentL, noCommentN, Bool.and_eq_true] at h
    simp only [removeTagsList, Node.isElement, Bool.false_and, if_false,
      removeTagsNode, noCommentL, noCommentN]
    rw [noCommentL_removeTags tags ns h.2]
    rfl
  | .cons (.comment s) ns, h => by
    simp only [noCommentL, noCommentN, Bool.and_eq_true] at h
    exact absurd h.1 (by simp)
  | .cons (.directive s) ns, h => by
    simp only [noCommentL, noCommentN, Bool.and_eq_true] at h
    exact absurd h.1 (by simp)
  | .cons (.cdata s) ns, h => by
    simp only [noCommentL, noCommentN, Bool.and_eq_true] at h
    exact absurd h.1 (by simp)
termination_by l => sizeOf l
decreasing_by all_goals (simp only [NodeList.cons.sizeOf_spec, Node.element.sizeOf_spec]; omega)

theorem absentL_removeTags_mono (tags tags2 : List String) :
    ∀ l : NodeList, absentL tags l = true → absentL tags (removeTagsList tags2 l) = true
  | .nil, _ => rfl
  | .cons (.element t a d cs) ns, h => by
    simp only [absentL, absentN, Bool.and_eq_true] at h
    simp only [removeTagsList, Node.isElement, Node.tagOf, Bool.true_and]
    by_cases hc : tags2.contains t
    · simp only [hc, if_true]
      exact absentL_removeTags_mono tags tags2 ns h.2
    · simp only [hc, if_false, removeTagsNode, absentL, absentN]
      rw [absentL_removeTags_mono tags tags2 cs h.1.2,
        absentL_removeTags_mono tags tags2 ns h.2]
      simpa using h.1.1
  | .cons (.text s) ns, h => by
    simp only [absentL, absentN, Bool.and_eq_true] at h
    simp only [removeTagsList, Node.isElement, Bool.false_and, if_false,
      removeTagsNode, absentL, absentN]
    rw [absentL_removeTags_mono tags tags2 ns h.2]
    rfl
  | .cons (.comment s) ns, h => by
    simp only [absentL, absentN, Bool.and_eq_true] at h
    simp only [removeTagsList, Node.isElement, Bool.false_and, if_false,
      removeTagsNode, absentL, absentN]
    exact absentL_removeTags_mono tags tags2 ns h.2
  | .cons (.directive s) ns, h => by
    simp only [absentL, absentN, Bool.and_eq_true] at h
    simp only [removeTagsList, Node.isElement, Bool.false_and, if_false,
      removeTagsNode, absentL, absentN]
    exact absentL_removeTags_mono tags tags2 ns h.2
  | .cons (.cdata s) ns, h => by
    simp only [absentL, absentN, Bool.and_eq_true] at h
    simp only [removeTagsList, Node.isElement, Bool.false_and, if_false,
      removeTagsNode, absentL, absentN]
    exact absentL_removeTags_mono tags tags2 ns h.2
termination_by l => sizeOf l
decreasing_by all_goals (simp only [NodeList.cons.sizeOf_spec, Node.element.sizeOf_spec]; omega)

theorem cleanListB_stripChain : ∀ l : NodeList, cleanListB l = true →
    cleanListB (stripChain l) = true
  | .nil, _ => rfl
  | .cons n ns, h => by
    rw [cleanListB_cons, Bool.and_eq_true] at h
    simp only [stripChain]
    by_cases hw : isWsText n
    · rw [if_pos hw, cleanListB_cons, h.1, cleanListB_stripChain ns h.2]
      rfl
    · rw [if_neg hw]
      by_cases hb : isBrElem n
      · rw [if_pos hb]
        exact cleanListB_stripChain ns h.2
      · rw [if_neg hb, cleanListB_cons, h.1, h.2]
        rfl

theorem cleanListB_gatherP : ∀ l : NodeList, cleanListB l = true →
    cleanListB (gatherP l).1 = true ∧ cleanListB (gatherP l).2 = true
  | .nil, _ => ⟨rfl, rfl⟩
  | .cons n ns, h => by
    rw [cleanListB_cons, Bool.and_eq_true] at h
    simp only [gatherP]
    by_cases h1 : isBrElem n && nextNodeIsBr ns
    · rw [if_pos h1]
      refine ⟨rfl, ?_⟩
      rw [cleanListB_cons, h.1, h.2]
      rfl
    · rw [if_neg h1]
      by_cases h2 : isPhrasingContent n
      · rw [if_neg (by simp [h2])]
        have ih := cleanListB_gatherP ns h.2
        refine ⟨?_, ih.2⟩
        rw [cleanListB_cons, h.1, ih.1]
        rfl
      · rw [if_pos (by simp [h2])]
        refine ⟨rfl, ?_⟩
        rw [cleanListB_cons, h.1, h.2]
        rfl

theorem cleanListB_dropTrailingWs : ∀ l : NodeList, cleanListB l = true →
    cleanListB (dropTrailingWs l) = true
  | .nil, _ => rfl
  | .cons n ns, h => by
    rw [cleanListB_cons, Bool.and_eq_true] at h
    have ih := cleanListB_dropTrailingWs ns h.2
    simp only [dropTrailingWs]
    split
    · split
      · rfl
      · rw [cleanListB_cons, h.1]
        rfl
    · rw [cleanListB_cons, h.1, ih]
      rfl

mutual
theorem cleanNodeB_replaceBrs : ∀ n : Node, cleanNodeB n = true →
    cleanNodeB (replaceBrsNode n) = true
  | .element t a d cs, h => by
    simp only [cleanNodeB, noCommentN, absentN, Bool.and_eq_true] at h
    have ih := cleanListB_replaceBrs cs (by
      simp only [cleanListB, h.1, h.2.2, Bool.and_self])
    simp only [replaceBrsNode, cleanNodeB, noCommentN, absentN]
    simp only [cleanListB, Bool.and_eq_true] at ih
    rw [ih.1, ih.2]
    split
    · decide
    · simpa using h.2.1
  | .text s, _ => by simp only [replaceBrsNode]; rfl
  | .comment s, h => by simp only [replaceBrsNode]; exact h
  | .directive s, h => by simp only [replaceBrsNode]; exact h
  | .cdata s, h => by simp only [replaceBrsNode]; exact h
termination_by n => sizeOf n
decreasing_by
  simp [Node.element.sizeOf_spec]

theorem cleanListB_replaceBrs : ∀ l : NodeList, cleanListB l = true →
    cleanListB (replaceBrsChildren l).1 = true
  | .nil, _ => by simp only [replaceBrsChildren]; rfl
  | .cons n ns, h => by
    rw [cleanListB_cons, Bool.and_eq_true] at h
    simp only [replaceBrsChildren]
    by_cases hbr : isBrElem n && nextNodeIsBr ns
    · rw [if_pos hbr]
      have hstrip := cleanListB_stripChain ns h.2
      have hg := cleanListB_gatherP (stripChain ns) hstrip
      have hkids := cleanListB_dropTrailingWs (gatherP (stripChain ns)).1 hg.1
      have ihrest := cleanListB_replaceBrs (gatherP (stripChain ns)).2 hg.2
      have ihkids := cleanListB_replaceBrsKids
        (dropTrailingWs (gatherP (stripChain ns)).1) hkids
      rw [cleanListB_cons, ihrest]
      suffices hp : cleanNodeB
          (.element "p" [] false
            (replaceBrsKids (dropTrailingWs (gatherP (stripChain ns)).1))) = true by
        rw [hp]; rfl
      simp only [cleanNodeB, noCommentN, absentN]
      simp only [cleanListB, Bool.and_eq_true] at ihkids
      rw [ihkids.1, ihkids.2]
      decide
    · rw [if_neg hbr, cleanListB_cons, cleanNodeB_replaceBrs n h.1,
        cleanListB_replaceBrs ns h.2]
      rfl
termination_by l _ => sizeOf l
decreasing_by
  · have h1 := sizeOf_gatherP_snd_le (stripChain ns)
    have h2 := sizeOf_stripChain_le ns
    have h3 := sizeOf_node_pos n
    simp only [NodeList.cons.sizeOf_spec]; omega
  · have h1 := sizeOf_dropTrailingWs_le (gatherP (stripChain ns)).1
    have h2 := sizeOf_gatherP_fst_le (stripChain ns)
    have h3 := sizeOf_stripChain_le ns
    have h4 := sizeOf_node_pos n
    simp only [NodeList.cons.sizeOf_spec]; omega
  · simp only [NodeList.cons.sizeOf_spec]
    have := sizeOf_node_pos n
    omega
  · simp only [NodeList.cons.sizeOf_spec]; omega

theorem cleanListB_replaceBrsKids : ∀ l : NodeList, cleanListB l = true →
    cleanListB (replaceBrsKids l) = true
  | .nil, _ => by simp only [replaceBrsKids]; rfl
  | .cons n ns, h => by
    rw [cleanListB_cons, Bool.and_eq_true] at h
    simp only [replaceBrsKids]
    rw [cleanListB_cons, cleanNodeB_replaceBrs n h.1,
      cleanListB_replaceBrsKids ns h.2]
    rfl
termination_by l _ => sizeOf l
decreasing_by
  · simp only [NodeList.cons.sizeOf_spec]
    have := sizeOf_node_pos n
    omega
  · simp only [NodeList.cons.sizeOf_spec]; omega
end

theorem cleanListB_replaceFonts : ∀ l : NodeList, cleanListB l = true →
    cleanListB (replaceFontsList l) = true
  | .nil, _ => rfl
  | .cons (.element t a d cs) ns, h => by
    rw [cleanListB_cons, Bool.and_eq_true] at h
    have h1 := h.1
    simp only [cleanNodeB, noCommentN, absentN, Bool.and_eq_true] at h1
    have ihcs := cleanListB_replaceFonts cs (by
      simp only [cleanListB, h1.1, h1.2.2, Bool.and_self])
    simp only [replaceFontsList, replaceFontsNode]
    rw [cleanListB_cons, cleanListB_replaceFonts ns h.2]
    simp only [cleanListB, Bool.and_eq_true] at ihcs
    suffices hn : cleanNodeB
        (.element (if t = "font" then "span" else t) a d (replaceFontsList cs)) = true by
      rw [hn]; rfl
    simp only [cleanNodeB, noCommentN, absentN]
    rw [ihcs.1, ihcs.2]
    split
    · decide
    · simpa using h1.2.1
  | .cons (.text s) ns, h => by
    rw [cleanListB_cons, Bool.and_eq_true] at h
    simp only [replaceFontsList, replaceFontsNode]
    rw [cleanListB_cons, h.1, cleanListB_replaceFonts ns h.2]
    rfl
  | .cons (.comment s) ns, h => by
    rw [cleanListB_cons, Bool.and_eq_true] at h
    simp only [replaceFontsList, replaceFontsNode]
    rw [cleanListB_cons, h.1, cleanListB_replaceFonts ns h.2]
    rfl
  | .cons (.directive s) ns, h => by
    rw [cleanListB_cons, Bool.and_eq_true] at h
    simp only [replaceFontsList, replaceFontsNode]
    rw [cleanListB_cons, h.1, cleanListB_replaceFonts ns h.2]
    rfl
  | .cons (.cdata s) ns, h => by
    rw [cleanListB_cons, Bool.and_eq_true] at h
    simp only [replaceFontsList, replaceFontsNode]
    rw [cleanListB_cons, h.1, cleanListB_replaceFonts ns h.2]
    rfl
termination_by l => sizeOf l
decreasing_by all_goals (simp only [NodeList.cons.sizeOf_spec, Node.element.sizeOf_spec]; omega)


/-! ### The pre-pass produces a clean document, on which JSON-LD
extraction finds nothing -/

theorem contains_append_eq (a : String) (l1 l2 : List String) :
    (l1 ++ l2).contains a = (l1.contains a || l2.contains a) := by
  simp

theorem absentL_append (t1 t2 : List String) :
    ∀ l : NodeList, absentL t1 l = true → absentL t2 l = true →
      absentL (t1 ++ t2) l = true
  | .nil, _, _ => rfl
  | .cons (.element t a d cs) ns, h1, h2 => by
    simp only [absentL, absentN, Bool.and_eq_true] at h1 h2
    simp only [absentL, absentN, Bool.and_eq_true]
    refine ⟨⟨?_, absentL_append t1 t2 cs h1.1.2 h2.1.2⟩,
      absentL_append t1 t2 ns h1.2 h2.2⟩
    have e1 : t1.contains t = false := by simpa using h1.1.1
    have e2 : t2.contains t = false := by simpa using h2.1.1
    rw [contains_append_eq, e1, e2]
    rfl
  | .cons (.text s) ns, h1, h2 => by
    simp only [absentL, absentN, Bool.true_and] at h1 h2 ⊢
    exact absentL_append t1 t2 ns h1 h2
  | .cons (.comment s) ns, h1, h2 => by
    simp only [absentL, absentN, Bool.true_and] at h1 h2 ⊢
    exact absentL_append t1 t2 ns h1 h2
  | .cons (.directive s) ns, h1, h2 => by
    simp only [absentL, absentN, Bool.true_and] at h1 h2 ⊢
    exact absentL_append t1 t2 ns h1 h2
  | .cons (.cdata s) ns, h1, h2 => by
    simp only [absentL, absentN, Bool.true_and] at h1 h2 ⊢
    exact absentL_append t1 t2 ns h1 h2
termination_by l => sizeOf l
decreasing_by all_goals (simp only [NodeList.cons.sizeOf_spec, Node.element.sizeOf_spec]; omega)

/-- The pre-pass of `parse()` leaves a document with no comment, directive
or CDATA node and no `<script>`, `<noscript>` or `<style>` element. -/
theorem cleanListB_docBeforeGrab (doc : NodeList) :
    cleanListB (docBeforeGrab doc) = true := by
  have h0 := noCommentL_removeComments doc
  have h1n := noCommentL_removeTags ["script", "noscript"] _ h0
  have h1a := absentL_removeTags ["script", "noscript"] (removeCommentsList doc)
  have h2n := noCommentL_removeTags ["style"] _ h1n
  have h2a1 := absentL_removeTags_mono ["script", "noscript"] ["style"] _ h1a
  have h2a2 := absentL_removeTags ["style"]
      (removeTagsList ["script", "noscript"] (removeCommentsList doc))
  have hb := absentL_append ["script", "noscript"] ["style"] _ h2a1 h2a2
  have hc2 : cleanListB (removeTagsList ["style"]
      (removeTagsList ["script", "noscript"] (removeCommentsList doc))) = true := by
    simp only [cleanListB, h2n, Bool.true_and]
    exact hb
  have hbr := cleanListB_replaceBrs _ hc2
  have hf := cleanListB_replaceFonts _ hbr
  simpa only [docBeforeGrab, replaceBrsDoc] using hf

theorem descendantsList_absent (tags : List String) :
    ∀ l : NodeList, absentL tags l = true →
      ∀ n ∈ descendantsList l, (n.isElement && tags.contains n.tagOf) = false
  | .nil, _, n, hn => by simp [descendantsList] at hn
  | .cons (.element t a d cs) ns, h, n, hn => by
    simp only [absentL, absentN, Bool.and_eq_true] at h
    simp only [descendantsList, Node.descendants, List.mem_cons,
      List.mem_append] at hn
    rcases hn with rfl | hn | hn
    · simp only [Node.isElement, Node.tagOf, Bool.true_and]
      simpa using h.1.1
    · exact descendantsList_absent tags cs h.1.2 n hn
    · exact descendantsList_absent tags ns h.2 n hn
  | .cons (.text s) ns, h, n, hn => by
    simp only [absentL, absentN, Bool.true_and] at h
    simp only [descendantsList, Node.descendants, List.nil_append,
      List.mem_cons] at hn
    rcases hn with rfl | hn
    · rfl
    · exact descendantsList_absent tags ns h n hn
  | .cons (.comment s) ns, h, n, hn => by
    simp only [absentL, absentN, Bool.true_and] at h
    simp only [descendantsList, Node.descendants, List.nil_append,
      List.mem_cons] at hn
    rcases hn with rfl | hn
    · rfl
    · exact descendantsList_absent tags ns h n hn
  | .cons (.directive s) ns, h, n, hn => by
    simp only [absentL, absentN, Bool.true_and] at h
    simp only [descendantsList, Node.descendants, List.nil_append,
      List.mem_cons] at hn
    rcases hn with rfl | hn
    · rfl
    · exact descendantsList_absent tags ns h n hn
  | .cons (.cdata s) ns, h, n, hn => by
    simp only [absentL, absentN, Bool.true_and] at h
    simp only [descendantsList, Node.descendants, List.nil_append,
      List.mem_cons] at hn
    rcases hn with rfl | hn
    · rfl
    · exact descendantsList_absent tags ns h n hn
termination_by l => sizeOf l
decreasing_by all_goals (simp only [NodeList.cons.sizeOf_spec, Node.element.sizeOf_spec]; omega)

/-- On a clean document there is no `script[type="application/ld+json"]`. -/
theorem ldJsonScripts_clean (doc : NodeList) (h : cleanListB doc = true) :
    ldJsonScripts doc = [] := by
  have habs : absentL BANNED_TAGS doc = true := by
    simp only [cleanListB, Bool.and_eq_true] at h
    exact h.2
  have hall := descendantsList_absent BANNED_TAGS doc habs
  have hfind : findTagsDoc ["script"] doc = [] := by
    simp only [findTagsDoc]
    refine List.filter_eq_nil_iff.mpr ?_
    intro n hn hp
    have hb := hall n hn
    simp only [Bool.and_eq_true] at hp
    have ht : n.tagOf = "script" := by simpa using hp.2
    rw [hp.1, ht] at hb
    simp [BANNED_TAGS] at hb
  simp only [ldJsonScripts, hfind, List.filter_nil]

/-- JSON-LD extraction on a clean document returns the empty metadata:
running `getJSONLD` after script removal would always lose the JSON-LD
data, which is why `parse()` calls it first. -/
theorem getJSONLD_clean (doc : NodeList) (h : cleanListB doc = true) :
    getJSONLD doc = {} := by
  simp only [getJSONLD, ldJsonScripts_clean doc h, List.foldl_nil,
    Option.getD_none]

/-! ### The retry ladder, step by step -/

/-- Head of JavaScript's descending stable sort: it is a maximal element. -/
theorem mergeSortDesc_head (l : List (Node × Nat)) (h : l ≠ []) :
    ∃ best rest, l.mergeSort (fun a b => decide (b.2 ≤ a.2)) = best :: rest ∧
      best ∈ l ∧ ∀ x ∈ l, x.2 ≤ best.2 := by
  have hperm : List.Perm (l.mergeSort (fun a b => decide (b.2 ≤ a.2))) l :=
    List.mergeSort_perm l _
  have hsorted := @List.sorted_mergeSort _ (fun a b => decide (b.2 ≤ a.2))
    (fun a b c hab hbc => by simp_all; omega)
    (fun a b => by simp; omega) l
  match hm : l.mergeSort (fun a b => decide (b.2 ≤ a.2)) with
  | [] =>
    rw [hm] at hperm
    exact absurd hperm.symm.eq_nil h
  | best :: rest =>
    rw [hm] at hperm hsorted
    refine ⟨best, rest, rfl, ?_, ?_⟩
    · exact hperm.mem_iff.mp (List.mem_cons_self _ _)
    · intro x hx
      rcases List.mem_cons.mp (hperm.mem_iff.mpr hx) with rfl | hx3
      · exact le_refl _
      · have h4 := (List.pairwise_cons.mp hsorted).1 x hx3
        simpa using h4

/-- A pass reaching `charThreshold` is returned at once. -/
theorem grabLoopAux_success (pass : FlagState → Node) (ct : Nat)
    (flags : FlagState) (atts : List (Node × Nat))
    (h : ct ≤ attemptLen pass flags) :
    grabLoopAux pass ct flags atts = some (pass flags) := by
  rw [grabLoopAux]
  simp only [if_pos h]

/-- A failed first pass records the attempt and clears `STRIP_UNLIKELYS`. -/
theorem grabLoopAux_step1 (pass : FlagState → Node) (ct : Nat)
    (atts : List (Node × Nat)) (h : attemptLen pass flagsPass1 < ct) :
    grabLoopAux pass ct flagsPass1 atts =
      grabLoopAux pass ct flagsPass2
        (atts ++ [(pass flagsPass1, attemptLen pass flagsPass1)]) := by
  rw [grabLoopAux]
  rw [if_neg (by omega)]
  rfl

/-- A failed second pass records the attempt and clears `WEIGHT_CLASSES`. -/
theorem grabLoopAux_step2 (pass : FlagState → Node) (ct : Nat)
    (atts : List (Node × Nat)) (h : attemptLen pass flagsPass2 < ct) :
    grabLoopAux pass ct flagsPass2 atts =
      grabLoopAux pass ct flagsPass3
        (atts ++ [(pass flagsPass2, attemptLen pass flagsPass2)]) := by
  rw [grabLoopAux]
  rw [if_neg (by omega)]
  rfl

/-- A failed third pass records the attempt and clears
`CLEAN_CONDITIONALLY`. -/
theorem grabLoopAux_step3 (pass : FlagState → Node) (ct : Nat)
    (atts : List (Node × Nat)) (h : attemptLen pass flagsPass3 < ct) :
    grabLoopAux pass ct flagsPass3 atts =
      grabLoopAux pass ct flagsPass4
        (atts ++ [(pass flagsPass3, attemptLen pass flagsPass3)]) := by
  rw [grabLoopAux]
  rw [if_neg (by omega)]
  rfl

/-- With no flag left to clear, a failed pass ends the loop: the recorded
attempts are sorted by descending text length and the head decides the
result. -/
theorem grabLoopAux_final (pass : FlagState → Node) (ct : Nat)
    (atts : List (Node × Nat)) (h : attemptLen pass flagsPass4 < ct) :
    grabLoopAux pass ct flagsPass4 atts =
      match (atts ++ [(pass flagsPass4, attemptLen pass flagsPass4)]).mergeSort
          (fun a b => decide (b.2 ≤ a.2)) with
      | [] => none
      | best :: _ => if best.2 = 0 then none else some best.1 := by
  rw [grabLoopAux]
  rw [if_neg (by omega)]
  rfl

/-! ### The anchor weight as the spec words it, and as amended -/

/-- The anchor weight as the spec has it: 0.3 whenever `href` starts with
`#`, `href` exactly `"#"` included. -/
def claimAnchorCoefficient (a : Node) : ℚ :=
  match a.getAttr "href" with
  | some href => if startsWithS href "#" then 3 / 10 else 1
  | none => 1

/-- Link density as the spec has it. -/
def claimLinkDensity (n : Node) : ℚ :=
  let textLength := (getInnerText n).length
  if textLength = 0 then 0
  else
    ((findTags ["a"] n).foldl
      (fun acc a => acc + ((getInnerText a).length : ℚ) * claimAnchorCoefficient a) 0)
      / (textLength : ℚ)

/-- The amended anchor weight: 0.3 exactly when `href` starts with `#` and
has at least one further character, the first of which is not a line
terminator; in particular `href="#"` weighs 1. -/
def amendedAnchorCoefficient (a : Node) : ℚ :=
  match a.getAttr "href" with
  | some href =>
    match href.data.drop 1 with
    | c :: _ => if startsWithS href "#" && !isJsLineTerm c then 3 / 10 else 1
    | [] => 1
  | none => 1

/-- Link density with the amended anchor weight. -/
def amendedLinkDensity (n : Node) : ℚ :=
  let textLength := (getInnerText n).length
  if textLength = 0 then 0
  else
    ((findTags ["a"] n).foldl
      (fun acc a => acc + ((getInnerText a).length : ℚ) * amendedAnchorCoefficient a) 0)
      / (textLength : ℚ)

/-- The source's per-anchor weight coincides with the amended reading. -/
theorem anchorCoefficient_eq_amended (a : Node) :
    anchorCoefficient a = amendedAnchorCoefficient a := by
  simp only [anchorCoefficient, amendedAnchorCoefficient]
  cases a.getAttr "href" with
  | none => rfl
  | some href =>
    obtain ⟨data⟩ := href
    match data with
    | [] => rfl
    | [c] =>
      have h1 : hashUrlTest (String.mk [c]) = false := by
        unfold hashUrlTest
        split
        · rename_i heq
          simp at heq
        · rfl
      simp [h1]
    | c :: c2 :: rest =>
      by_cases hc : c = '#'
      · subst hc
        simp [hashUrlTest, startsWithS, startsWithList, String.ext_iff]
      · have h1 : hashUrlTest (String.mk (c :: c2 :: rest)) = false := by
          unfold hashUrlTest
          split
          · rename_i heq
            simp at heq
            exact absurd heq.1 hc
          · rfl
        have h2 : startsWithS (String.mk (c :: c2 :: rest)) "#" = false := by
          simp [startsWithS, startsWithList]
          intro h
          exact absurd h.symm hc
        simp [h1, h2]

/-- The source's link density coincides with the amended reading. -/
theorem getLinkDensity_eq_amended (n : Node) :
    getLinkDensity n = amendedLinkDensity n := by
  have hfun :
      (fun (acc : ℚ) (a : Node) =>
        acc + ((getInnerText a).length : ℚ) * anchorCoefficient a) =
      (fun (acc : ℚ) (a : Node) =>
        acc + ((getInnerText a).length : ℚ) * amendedAnchorCoefficient a) := by
    funext acc a
    rw [anchorCoefficient_eq_amended]
  simp only [getLinkDensity, amendedLinkDensity, hfun]

/-! ### Example documents -/

def exMetaDoc : NodeList := nodesOf [el "html" [] [
  el "head" [] [el "meta" [("property", "og:description"), ("content", "Hello")] []],
  el "body" [] []]]

def exOptsNoX : ROptions := { extraction := false }

def exLdDoc : NodeList := nodesOf [el "html" [] [
  el "head" [] [el "script" [("type", "application/ld+json")]
    [Node.text "\x7b\"@context\": \"https://schema.org\", \"@type\": \"NewsArticle\", \"name\": \"X\"\x7d"]],
  el "body" [] []]]

def exDoc4 : NodeList :=
  nodesOf [el "html" [] [el "head" [] [], el "body" [] [el "div" [] [Node.text "yo"]]]]

def row12 : Node := el "tr" [] [el "td" [] [Node.text "x"]]

def presTable : Node :=
  .element "table" [("role", "presentation")] false (nodesOf (List.replicate 12 row12))

def col1Table : Node := el "table" [] (List.replicate 12 row12)

def captionTable : Node := el "table" [] [el "caption" [] [el "span" [] [Node.text "t"]]]

def exC6 : Node :=
  .element "div" [("class", "sidebar")] false
    (nodesOf [Node.text "a,a,a,a,a,a,a,a,a,a,a,a"])

def exC6b : Node := el "div" [] [Node.text "a,a,a,a,a,a,a,a,a,a,a,a"]

def exC8 : Node := el "div" [] [el "a" [("href", "#")] [Node.text "ab"]]

def exC10 : Node := el "div" [] [Node.text "ad"]

def dataTbl : Node := .element "table" [("summary", "x")] true .nil

def exC10b : Node := .element "div" [] false (nodesOf [dataTbl, Node.text "Реклама"])

/-! ## The claims -/

/-- C1 (amended): with `extraction` disabled and the element-count guard
passing, `parse()` returns a result whose `content`, `textContent` and
`length` fields are null, while `excerpt` carries the metadata excerpt
(null only when the metadata has none). -/
theorem C1_no_extraction_nulls (doc : NodeList) (options : ROptions)
    (hg : parseGuard doc options = none) :
    ∃ r, parseNoExtraction doc options = .ok r ∧
      r.content = none ∧ r.textContent = none ∧ r.length = none ∧
      r.excerpt =
        jsOrS (getArticleMetadata doc
          (if options.disableJSONLD then {} else getJSONLD doc)).excerpt none := by
  simp only [parseNoExtraction, hg]
  exact ⟨_, rfl, rfl, rfl, rfl, rfl⟩

/-- C1 witness: the theorem at a concrete document and options. -/
theorem C1_no_extraction_nulls_witness :
    ∃ r, parseNoExtraction exMetaDoc exOptsNoX = .ok r ∧
      r.content = none ∧ r.textContent = none ∧ r.length = none ∧
      r.excerpt =
        jsOrS (getArticleMetadata exMetaDoc
          (if exOptsNoX.disableJSONLD then {} else getJSONLD exMetaDoc)).excerpt none :=
  C1_no_extraction_nulls exMetaDoc exOptsNoX rfl

/-- C1 counterexample: with an `og:description` meta tag present, `excerpt`
is not null even though extraction is disabled, while `content` is. -/
theorem C1_counterexample :
    (parseNoExtraction exMetaDoc exOptsNoX).map (fun r => r.excerpt) =
      .ok (some "Hello") ∧
    (parseNoExtraction exMetaDoc exOptsNoX).map (fun r => r.content) = .ok none :=
  ⟨rfl, rfl⟩

/-- C2: the pre-pass of `parse()` removes every comment, directive and
CDATA node and every `<script>`, `<noscript>` and `<style>` element before
`grabArticle` runs; and JSON-LD extraction comes before script removal:
on the cleaned document it always returns empty metadata, whereas on the
original document it can extract data. -/
theorem C2_prepass_removals (doc : NodeList) :
    cleanListB (docBeforeGrab doc) = true ∧
    getJSONLD (docBeforeGrab doc) = {} ∧
    getJSONLD exLdDoc = { title := some "X" } :=
  ⟨cleanListB_docBeforeGrab doc,
   getJSONLD_clean _ (cleanListB_docBeforeGrab doc),
   rfl⟩

/-- C3: the retry loop of `grabArticle` runs at most four passes, clearing
`STRIP_UNLIKELYS`, then `WEIGHT_CLASSES`, then `CLEAN_CONDITIONALLY`; a
pass whose text reaches `charThreshold` is returned at once, and when
every pass falls short the recorded attempt with the longest text decides
the result: `none` when even it is empty. -/
theorem C3_retry_ladder (pass : FlagState → Node) (ct : Nat) :
    (ct ≤ attemptLen pass flagsPass1 →
      grabArticleLoop pass ct = some (pass flagsPass1)) ∧
    (attemptLen pass flagsPass1 < ct → ct ≤ attemptLen pass flagsPass2 →
      grabArticleLoop pass ct = some (pass flagsPass2)) ∧
    (attemptLen pass flagsPass1 < ct → attemptLen pass flagsPass2 < ct →
      ct ≤ attemptLen pass flagsPass3 →
      grabArticleLoop pass ct = some (pass flagsPass3)) ∧
    (attemptLen pass flagsPass1 < ct → attemptLen pass flagsPass2 < ct →
      attemptLen pass flagsPass3 < ct → ct ≤ attemptLen pass flagsPass4 →
      grabArticleLoop pass ct = some (pass flagsPass4)) ∧
    (attemptLen pass flagsPass1 < ct → attemptLen pass flagsPass2 < ct →
      attemptLen pass flagsPass3 < ct → attemptLen pass flagsPass4 < ct →
      ∃ best ∈ [(pass flagsPass1, attemptLen pass flagsPass1),
                (pass flagsPass2, attemptLen pass flagsPass2),
                (pass flagsPass3, attemptLen pass flagsPass3),
                (pass flagsPass4, attemptLen pass flagsPass4)],
        (∀ x ∈ [(pass flagsPass1, attemptLen pass flagsPass1),
                (pass flagsPass2, attemptLen pass flagsPass2),
                (pass flagsPass3, attemptLen pass flagsPass3),
                (pass flagsPass4, attemptLen pass flagsPass4)], x.2 ≤ best.2) ∧
        grabArticleLoop pass ct =
          if best.2 = 0 then none else some best.1) := by
  refine ⟨?_, ?_, ?_, ?_, ?_⟩
  · intro h1
    exact grabLoopAux_success pass ct flagsPass1 [] h1
  · intro h1 h2
    rw [grabArticleLoop, grabLoopAux_step1 pass ct [] h1]
    exact grabLoopAux_success pass ct flagsPass2 _ h2
  · intro h1 h2 h3
    rw [grabArticleLoop, grabLoopAux_step1 pass ct [] h1,
      grabLoopAux_step2 pass ct _ h2]
    exact grabLoopAux_success pass ct flagsPass3 _ h3
  · intro h1 h2 h3 h4
    rw [grabArticleLoop, grabLoopAux_step1 pass ct [] h1,
      grabLoopAux_step2 pass ct _ h2, grabLoopAux_step3 pass ct _ h3]
    exact grabLoopAux_success pass ct flagsPass4 _ h4
  · intro h1 h2 h3 h4
    rw [grabArticleLoop, grabLoopAux_step1 pass ct [] h1,
      grabLoopAux_step2 pass ct _ h2, grabLoopAux_step3 pass ct _ h3,
      grabLoopAux_final pass ct _ h4]
    simp only [List.nil_append, List.cons_append]
    obtain ⟨best, rest, hm, hmem, hmax⟩ := mergeSortDesc_head
      [(pass flagsPass1, attemptLen pass flagsPass1),
       (pass flagsPass2, attemptLen pass flagsPass2),
       (pass flagsPass3, attemptLen pass flagsPass3),
       (pass flagsPass4, attemptLen pass flagsPass4)] (by simp)
    rw [hm]
    exact ⟨best, hmem, hmax, rfl⟩

/-- C3 witness: a pass that always produces an empty article at threshold
1 makes every pass fail with length 0, so the loop returns `none`. -/
theorem C3_retry_ladder_witness :
    grabArticleLoop (fun _ => el "div" [] []) 1 = none := by
  obtain ⟨-, -, -, -, h5⟩ := C3_retry_ladder (fun _ => el "div" [] []) 1
  obtain ⟨best, hmem, -, heq⟩ := h5 (by decide) (by decide) (by decide) (by decide)
  have hb : best.2 = 0 := by
    simp only [List.mem_cons, List.not_mem_nil, or_false] at hmem
    rcases hmem with h | h | h | h <;> (rw [h]; decide)
  rw [heq, if_pos hb]

/-- C4: with a positive `maxElemsToParse`, `parse()` proceeds when the
element count does not exceed it and aborts with the
"Aborting parsing document" message when it does; on
`<html><div>yo</div></html>` with `maxElemsToParse = 1` the count is 4. -/
theorem C4_max_elems (doc : NodeList) (options : ROptions)
    (hpos : 0 < options.maxElemsToParse) :
    (countElements doc ≤ options.maxElemsToParse →
      parseGuard doc options = none) ∧
    (options.maxElemsToParse < countElements doc →
      parseGuard doc options =
        some ("Aborting parsing document; " ++ toString (countElements doc) ++
          " elements found")) ∧
    parseNoExtraction exDoc4 { extraction := false, maxElemsToParse := 1 } =
      .error "Aborting parsing document; 4 elements found" := by
  refine ⟨?_, ?_, rfl⟩
  · intro hle
    simp only [parseGuard, if_pos hpos]
    rw [if_neg (by omega)]
  · intro hgt
    simp only [parseGuard, if_pos hpos]
    rw [if_pos (by omega)]

/-- C4 witness: the theorem at a document with exactly 4 elements and
`maxElemsToParse = 4`. -/
theorem C4_max_elems_witness :
    parseGuard exDoc4 { maxElemsToParse := 4 } = none :=
  (C4_max_elems exDoc4 { maxElemsToParse := 4 } (by decide)).1 (by decide)

/-- C6 (amended): during conditional cleaning, an element that is not
exempted, has non-negative class weight and more than 10 commas in its
inner text is kept — with negative class weight, removal happens before
the comma count is consulted. -/
theorem C6_commas_keep (videoTest : String → Bool) (ldm : ℚ) (wc : Bool)
    (tag : String) (ancestors : List Node) (node : Node)
    (hex : cleanConditionallyExempt tag ancestors node = false)
    (hw : 0 ≤ getClassWeight wc node)
    (hc : 10 < ccCommaCount node) :
    cleanConditionallyRemove videoTest ldm wc tag ancestors node = false := by
  simp only [cleanConditionallyRemove]
  rw [if_neg (by simp [hex]), if_neg (by omega), if_pos (by omega)]

/-- C6 witness: a plain 11-comma `<div>` is kept. -/
theorem C6_commas_keep_witness :
    cleanConditionallyRemove videosTest 0 true "div" [] exC6b = false :=
  C6_commas_keep videosTest 0 true "div" [] exC6b (by decide) (by decide)
    (by decide)

/-- C6 counterexample: an 11-comma `<div class="sidebar">` (class weight
-25) is removed, refuting "kept for every class weight". -/
theorem C6_counterexample :
    cleanConditionallyExempt "div" [] exC6 = false ∧
    10 < ccCommaCount exC6 ∧
    cleanConditionallyRemove videosTest 0 true "div" [] exC6 = true :=
  ⟨by decide, by decide, by decide⟩

/-- C7: `markDataTables` classifies a `role="presentation"` table as
not-data, a 12-row single-column table as not-data (the single-column rule
fires before the rows-at-least-10 rule), and a table with a
`<caption><span>t</span></caption>` as data. -/
theorem C7_mark_data_tables :
    markDataTableFlag presTable = false ∧
    markDataTableFlag col1Table = false ∧
    getRowAndColumnCount col1Table = (12, 1) ∧
    markDataTableFlag captionTable = true :=
  ⟨by decide, by decide, by decide, by decide⟩

/-- C8 (amended): link density is the anchor-weighted text length over the
element's text length, with weight 0.3 exactly when `href` starts with `#`
followed by at least one further (non-line-terminator) character — bare
`href="#"` weighs 1 — and density 0 when the element has no text. -/
theorem C8_link_density (n : Node) :
    getLinkDensity n = amendedLinkDensity n ∧
    ((getInnerText n).length = 0 → getLinkDensity n = 0) := by
  refine ⟨getLinkDensity_eq_amended n, ?_⟩
  intro h
  simp only [getLinkDensity]
  rw [if_pos h]

/-- C8 witness: the theorem at a text-free element. -/
theorem C8_link_density_witness :
    getLinkDensity (el "div" [] []) = 0 :=
  (C8_link_density (el "div" [] [])).2 (by decide)

/-- C8 counterexample: a document whose only anchor has `href="#"` has
link density 1, not the 0.3-weighted value the spec predicts. -/
theorem C8_counterexample :
    getLinkDensity exC8 = 1 ∧ claimLinkDensity exC8 = 3 / 10 ∧
      getLinkDensity exC8 ≠ claimLinkDensity exC8 := by
  have h1 : findTags ["a"] exC8 = [el "a" [("href", "#")] [Node.text "ab"]] := rfl
  have h2 : (getInnerText exC8).length = 2 := by decide
  have h3 : (getInnerText (el "a" [("href", "#")] [Node.text "ab"])).length = 2 := by
    decide
  have h4 : anchorCoefficient (el "a" [("href", "#")] [Node.text "ab"]) = 1 := by
    decide
  have h5 : claimAnchorCoefficient (el "a" [("href", "#")] [Node.text "ab"]) =
      3 / 10 := by
    have hattr : (el "a" [("href", "#")] [Node.text "ab"]).getAttr "href" =
        some "#" := rfl
    simp only [claimAnchorCoefficient, hattr]
    rw [if_pos (by decide)]
  have hA : getLinkDensity exC8 = 1 := by
    simp only [getLinkDensity, h1, h2, h3, h4, List.foldl]
    norm_num
  have hB : claimLinkDensity exC8 = 3 / 10 := by
    simp only [claimLinkDensity, h1, h2, h3, h5, List.foldl]
    norm_num
  refine ⟨hA, hB, ?_⟩
  rw [hA, hB]
  norm_num

/-- C9 (amended): `textSimilarity("Breaking News: Foo Wins", "Foo Wins")`
is 1, not approximately 0.57: every token of the second string occurs in
the first, so the distance is 0. -/
theorem C9_text_similarity :
    textSimilarity "Breaking News: Foo Wins" "Foo Wins" = 1 := by
  have h1 : jsTokens "Breaking News: Foo Wins" =
      ["breaking", "news", "foo", "wins"] := by decide
  have h2 : jsTokens "Foo Wins" = ["foo", "wins"] := by decide
  have h3 : (" ".intercalate ([] : List String)).length = 0 := by decide
  have h4 : (" ".intercalate ["foo", "wins"]).length = 8 := by decide
  have h5 : ["foo", "wins"].filter
      (fun token => !(["breaking", "news", "foo", "wins"].contains token)) = [] := by
    decide
  simp only [textSimilarity, h1, h2, h5]
  simp only [h3, h4]
  norm_num

/-- C9 counterexample: the value is not 0.57 (nor anywhere near it). -/
theorem C9_counterexample :
    textSimilarity "Breaking News: Foo Wins" "Foo Wins" ≠ 57 / 100 ∧
    3 / 5 < textSimilarity "Breaking News: Foo Wins" "Foo Wins" := by
  have h1 : jsTokens "Breaking News: Foo Wins" =
      ["breaking", "news", "foo", "wins"] := by decide
  have h2 : jsTokens "Foo Wins" = ["foo", "wins"] := by decide
  have h3 : (" ".intercalate ([] : List String)).length = 0 := by decide
  have h4 : (" ".intercalate ["foo", "wins"]).length = 8 := by decide
  have h5 : ["foo", "wins"].filter
      (fun token => !(["breaking", "news", "foo", "wins"].contains token)) = [] := by
    decide
  constructor
  · simp only [textSimilarity, h1, h2, h5]
    simp only [h3, h4]
    norm_num
  · simp only [textSimilarity, h1, h2, h5]
    simp only [h3, h4]
    norm_num

/-- C10 (amended): during conditional cleaning a candidate whose inner
text matches an advertising or loading word is removed, provided it is not
exempted (no data-table self/ancestor/descendant, no `<code>` ancestor),
has non-negative class weight, at most 10 commas and no allowed-video
embed. -/
theorem C10_adword_removal (videoTest : String → Bool) (ldm : ℚ) (wc : Bool)
    (tag : String) (ancestors : List Node) (node : Node)
    (hex : cleanConditionallyExempt tag ancestors node = false)
    (hw : 0 ≤ getClassWeight wc node)
    (hc : ccCommaCount node ≤ 10)
    (hv : embedVideoKeep videoTest node = false)
    (ha : (adWordsTest (getInnerText node) ||
      loadingWordsTest (getInnerText node)) = true) :
    cleanConditionallyRemove videoTest ldm wc tag ancestors node = true := by
  simp only [cleanConditionallyRemove]
  rw [if_neg (by simp [hex]), if_neg (by omega), if_neg (by omega),
    if_neg (by simp [hv]), if_pos ha]

/-- C10 witness: a `<div>` whose text is exactly "ad" is removed. -/
theorem C10_adword_removal_witness :
    cleanConditionallyRemove videosTest 0 true "div" [] exC10 = true :=
  C10_adword_removal videosTest 0 true "div" [] exC10 (by decide) (by decide)
    (by decide) (by decide) (by decide)

/-- C10 counterexample: a `<div>` whose text matches an ad word but which
contains a marked data table is kept, though it has no data-table or code
ancestor — the claim omits the data-table descendant exemption. -/
theorem C10_counterexample :
    adWordsTest (getInnerText exC10b) = true ∧
    hasAncestorTag [] "table" (-1) isDataTable = false ∧
    hasAncestorTag [] "code" 3 (fun _ => true) = false ∧
    0 ≤ getClassWeight true exC10b ∧
    ccCommaCount exC10b ≤ 10 ∧
    embedVideoKeep videosTest exC10b = false ∧
    cleanConditionallyRemove videosTest 0 true "div" [] exC10b = false :=
  ⟨by decide, by decide, by decide, by decide, by decide, by decide, by decide⟩

theorem cleanClasses_pagediv (preserve : List String) (cs : NodeList) :
    cleanClassesNode preserve
      (.element "div" [("id", "readability-page-1"), ("class", "page")] false cs) =
    .element "div"
      (if preserve.contains "page" then
        [("id", "readability-page-1"), ("class", "page")]
      else [("id", "readability-page-1")])
      false (cleanClassesList preserve cs) := by
  have e1 : jsSplitWs "page" = ["page"] := by decide
  by_cases hp : preserve.contains "page"
  · have hp2 : "page" ∈ preserve := by simpa using hp
    have e2 : " ".intercalate ["page"] = "page" := by decide
    have e3 : setAttrL [("id", "readability-page-1"), ("class", "page")] "class"
        "page" = [("id", "readability-page-1"), ("class", "page")] := by decide
    simp [cleanClassesNode, hp, hp2, e1, e2, e3]
  · have hp2 : "page" ∉ preserve := by simpa using hp
    have e2 : " ".intercalate ([] : List String) = "" := by decide
    have e4 : removeAttrL [("id", "readability-page-1"), ("class", "page")]
        "class" = [("id", "readability-page-1")] := by decide
    simp [cleanClassesNode, hp, hp2, e1, e2, e4]

/-- C5 (amended): grabArticle wraps the article content in a single child
`<div id="readability-page-1" class="page">`; post-processing then strips
the `class` attribute unless `keepClasses` is set or `"page"` is in
`classesToPreserve` — a user-supplied `classesToPreserve` replaces the
default `["page"]` rather than extending it. -/
theorem C5_page_wrapper (keepClasses : Bool) (preserve : List String)
    (t : String) (a : List (String × String)) (dt : Bool) (cs : NodeList) :
    ∃ a2 cs2,
      postProcessClasses keepClasses preserve
          (wrapArticleContent (.element t a dt cs)) =
        .element t a2 dt
          (.cons
            (.element "div"
              (if keepClasses || preserve.contains "page" then
                [("id", "readability-page-1"), ("class", "page")]
              else [("id", "readability-page-1")])
              false cs2)
            .nil) := by
  cases keepClasses with
  | true => exact ⟨a, cs, rfl⟩
  | false =>
    refine ⟨(cleanClassesNode preserve (.element t a dt .nil)).attrsOf,
      cleanClassesList preserve cs, ?_⟩
    have houter : postProcessClasses false preserve
        (wrapArticleContent (.element t a dt cs)) =
      .element t (cleanClassesNode preserve (.element t a dt .nil)).attrsOf dt
        (.cons (cleanClassesNode preserve (.element "div"
          [("id", "readability-page-1"), ("class", "page")] false cs)) .nil) := rfl
    rw [houter, cleanClasses_pagediv]
    simp only [Bool.false_or]

/-- C5 counterexample: with `classesToPreserve = ["foo"]` and the default
`keepClasses = false`, the page wrapper keeps its id but loses its
`class="page"` attribute. -/
theorem C5_counterexample :
    postProcessClasses false ["foo"]
        (wrapArticleContent (el "div" [] [Node.text "x"])) =
      el "div" [] [.element "div" [("id", "readability-page-1")] false
        (.cons (Node.text "x") .nil)] ∧
    postProcessClasses false ["page"]
        (wrapArticleContent (el "div" [] [Node.text "x"])) =
      el "div" [] [.element "div"
        [("id", "readability-page-1"), ("class", "page")] false
        (.cons (Node.text "x") .nil)] :=
  ⟨rfl, rfl⟩

end CheerReader
